import Mathlib

/-
Verification of the luminardb core against its specification.

Shallow embedding of the data model and operations of:
  src/EnhancedStorageEngineTransaction.ts (overlay transaction, CDC derivation),
  src/Query.ts (reactive query incremental maintenance),
  src/Subscribeable.ts (SyncManager.pull),
  src/LockController.ts.

Modelling conventions:
  - Documents are JSON objects over scalar fields; fields are modelled as
    String keys with Int values (the repository stores string/number scalars;
    only ordering and equality of field values matter to Condition).
  - JS object spread merge is jsMerge; JS Map contents are modelled either as
    association lists (when the source iterates the map) or as functions
    Key -> Option Doc (when only get/set/delete are used).
  - Document keys (StorageEngineValidKey) are modelled as String; the
    auto-incrementing integer keys of the __mutations collection are Nat.
  - getIncrementingTimestamp (utils.ts) is the max(now, last+1) counter; it is
    modelled by its last+1 branch, threaded through the transaction state.
-/

namespace LuminarDB

/-- A document value: a JSON object, modelled as an association list from
field names to scalar values (first occurrence of a field wins on lookup,
as JS object keys are unique). -/
abbrev Doc := List (String × Int)

/-- Reading a field of a JS object: `data[field]`, `undefined` as `none`. -/
def lookupField (d : Doc) (f : String) : Option Int :=
  (d.find? (fun p => p.1 == f)).map (fun p => p.2)

/-- JS object spread `\x7b...base, ...delta\x7d`: every field of `base`, with
fields also present in `delta` overridden, followed by the fields only in
`delta` (JS key order: base keys first, then new delta keys). -/
def jsMerge (base delta : Doc) : Doc :=
  base.map (fun p =>
    match lookupField delta p.1 with
    | some v => (p.1, v)
    | none => p)
  ++ delta.filter (fun p => (lookupField base p.1).isNone)

/-- Comparators of Condition (src/Condition.ts, ComparatorList). -/
inductive ConditionComparator
  | eq
  | gt
  | lt
  | gte
  | lte
deriving DecidableEq, Repr

/-- A single-field filter (src/Condition.ts): field name, comparator, bound. -/
structure Condition where
  key : String
  comparator : ConditionComparator
  value : Int
deriving DecidableEq, Repr

/-- Membership in the IDBKeyRange generated by Condition.generateIDBKeyRange:
lt/gt are open bounds, lte/gte closed, eq the single point. -/
def keyRangeIncludes (cmp : ConditionComparator) (bound x : Int) : Bool :=
  match cmp with
  | .eq => x == bound
  | .gt => decide (bound < x)
  | .lt => decide (x < bound)
  | .gte => decide (bound ≤ x)
  | .lte => decide (x ≤ bound)

/-- Condition.doesDataSatisfyCondition: false on an empty field name
(`if (!this.#key) return false`), otherwise range membership of
`data[this.#key]`. A document lacking the field is modelled as not in range
(IndexedDB would raise DataError on the invalid key `undefined`; the theorems
below only evaluate conditions on documents carrying the field). -/
def condSatisfies (c : Condition) (d : Doc) : Bool :=
  if c.key == "" then false
  else
    match lookupField d c.key with
    | none => false
    | some x => keyRangeIncludes c.comparator c.value x

/-- Document keys (StorageEngineValidKey), modelled as strings. -/
abbrev Key := String

/-- PendingDocumentState (EnhancedStorageEngineTransaction.ts lines 18-35). -/
inductive PendingDocumentState
  | INSERTED (key : Key) (value : Doc)
  | DELETED (key : Key) (value : Doc)
  | UPDATED (key : Key) (value : Doc) (delta : Doc)
  | UPDATE_POST_INSERT (key : Key) (value : Doc) (delta : Doc)
deriving DecidableEq, Repr

/-- Shared fields of a PendingMutationChange (src/InternalSchema.ts). The
source stores `id = "<mutationId>-<timestamp>"` as a string and parses it
back with split/parseInt for sorting; the two numeric components are kept
directly. -/
structure ChangeMeta where
  collectionName : String
  key : Key
  mutationId : Nat
  timestamp : Nat
deriving DecidableEq, Repr

/-- PendingMutationChange (src/InternalSchema.ts): the tagged INSERT / UPDATE /
DELETE entries of a mutation row's change list. -/
inductive PendingMutationChange
  | insertChange (meta : ChangeMeta) (value : Doc)
  | updateChange (meta : ChangeMeta) (preUpdateValue postUpdateValue : Doc) (delta : Doc)
  | deleteChange (meta : ChangeMeta) (value : Doc)
deriving DecidableEq, Repr

def PendingMutationChange.meta : PendingMutationChange → ChangeMeta
  | .insertChange m _ => m
  | .updateChange m _ _ _ => m
  | .deleteChange m _ => m

/-- A row of the __mutations collection (DatabaseMutation,
src/InternalSchema.ts). `mutationArgs` and `localResolverResult` are opaque
payloads, kept as documents. -/
structure DatabaseMutation where
  id : Nat
  collectionsAffected : List String
  mutationName : String
  mutationArgs : Doc
  isCompleted : Bool
  isPushed : Bool
  remotePushAttempts : Nat
  changes : List PendingMutationChange
  localResolverResult : Option Doc
  serverMutationId : Option Nat
deriving DecidableEq, Repr

/-- The inner per-collection map of pending document states: a JS Map,
iterated in insertion order, so modelled as an association list. -/
abbrev PendingEntries := List (Key × PendingDocumentState)

/-- JS `Map.get`. -/
def mget {α : Type} (l : List (Key × α)) (k : Key) : Option α :=
  (l.find? (fun p => p.1 == k)).map (fun p => p.2)

/-- JS `Map.set`: replaces in place when the key is present (keeping its
position), appends otherwise. -/
def mset {α : Type} (l : List (Key × α)) (k : Key) (v : α) : List (Key × α) :=
  if l.any (fun p => p.1 == k) then
    l.map (fun p => if p.1 == k then (k, v) else p)
  else l ++ [(k, v)]

/-- One step of the pending-state fold
(EnhancedStorageEngineTransaction.#getPendingDocumentChangesCollectionMap,
lines 128-213), acting on the document-state map of the change's collection:
INSERT and DELETE set the state unconditionally; UPDATE dispatches on the
existing state (fresh UPDATED, ignored on DELETED, merge on the others). -/
def applyPendingChangeToMap (dm : PendingEntries) (c : PendingMutationChange) :
    PendingEntries :=
  match c with
  | .insertChange meta value => mset dm meta.key (.INSERTED meta.key value)
  | .deleteChange meta value => mset dm meta.key (.DELETED meta.key value)
  | .updateChange meta _ postUpdateValue delta =>
    match mget dm meta.key with
    | none => mset dm meta.key (.UPDATED meta.key postUpdateValue delta)
    | some (.DELETED _ _) => dm
    | some (.INSERTED _ v) =>
      mset dm meta.key (.UPDATE_POST_INSERT meta.key (jsMerge v delta) delta)
    | some (.UPDATE_POST_INSERT _ v d) =>
      mset dm meta.key
        (.UPDATE_POST_INSERT meta.key (jsMerge v delta) (jsMerge d delta))
    | some (.UPDATED _ v d) =>
      mset dm meta.key (.UPDATED meta.key (jsMerge v delta) (jsMerge d delta))

/-- The comparator of the change sort: ascending `(mutationId, timestamp)`
(the source compares the parsed components of `change.id` numerically). -/
def changeSortLE (a b : PendingMutationChange) : Bool :=
  decide (a.meta.mutationId < b.meta.mutationId) ||
    (a.meta.mutationId == b.meta.mutationId &&
      decide (a.meta.timestamp ≤ b.meta.timestamp))

/-- The flattened, sorted change list of the completed mutations
(lines 108-126 of EnhancedStorageEngineTransaction.ts). JS Array.sort is a
stable sort by the comparator; insertion sort by the total preorder
changeSortLE is that stable sort. -/
def sortedCompletedChanges (mutations : List DatabaseMutation) :
    List PendingMutationChange :=
  List.insertionSort (fun a b => changeSortLE a b = true)
    (((mutations.filter (fun m => m.isCompleted)).map
      (fun m => m.changes)).flatten)

/-- EnhancedStorageEngineTransaction.#getPendingDocumentChangesCollectionMap:
fold of the sorted completed changes into per-collection document-state maps
(a collection not yet touched maps to the fresh empty map, as
getDocumentStateMapForCollection creates it on demand). -/
def buildPendingCollectionMap (mutations : List DatabaseMutation) :
    String → PendingEntries :=
  (sortedCompletedChanges mutations).foldl
    (fun cmap c => fun cn =>
      if cn == c.meta.collectionName then applyPendingChangeToMap (cmap cn) c
      else cmap cn)
    (fun _ => [])

/-- CDCEvent (src/types/CDCEvent.ts). -/
inductive CDCEvent
  | INSERT (collectionName : String) (key : Key) (value : Doc) (timestamp : Nat)
  | UPDATE (collectionName : String) (key : Key)
      (postUpdateValue preUpdateValue : Doc) (delta : Doc) (timestamp : Nat)
  | DELETE (collectionName : String) (key : Key) (value : Doc) (timestamp : Nat)
  | CLEAR (collectionName : String) (timestamp : Nat)
deriving DecidableEq, Repr

def CDCEvent.collectionName : CDCEvent → String
  | .INSERT cn _ _ _ => cn
  | .UPDATE cn _ _ _ _ _ => cn
  | .DELETE cn _ _ _ => cn
  | .CLEAR cn _ => cn

/-- INTERNAL_SCHEMA_COLLECTION_NAMES (src/InternalSchema.ts). -/
def internalNames : List String := ["__mutations", "__meta"]

/-- The state of an EnhancedStorageEngineTransaction: the authoritative rows
of every ordinary collection ("__meta" included), the rows of the
"__mutations" collection (typed, keyed by their `id` field), the accumulated
CDC events, the publish flag, and the getIncrementingTimestamp counter. -/
structure TxState where
  base : String → Key → Option Doc
  mutations : List DatabaseMutation
  cdcEvents : List CDCEvent
  shouldPublishCDCEvents : Bool
  ts : Nat

/-- Point update of the base store. -/
def bset (b : String → Key → Option Doc) (cn : String) (k : Key)
    (v : Option Doc) : String → Key → Option Doc :=
  fun cn' k' => if cn' == cn && k' == k then v else b cn' k'

/-- Clearing one collection of the base store. -/
def bclear (b : String → Key → Option Doc) (cn : String) :
    String → Key → Option Doc :=
  fun cn' k' => if cn' == cn then none else b cn' k'

/-- The pending-state map of the transaction, derived on demand from the
__mutations rows. -/
def pendingMap (s : TxState) : String → PendingEntries :=
  buildPendingCollectionMap s.mutations

/-- EnhancedStorageEngineTransaction.queryByKey (lines 231-281): the base row
adjusted by the pending overlay state of the key. INSERTED and
UPDATE_POST_INSERT return the pending value, DELETED drops the row, UPDATED
merges the delta over the base row (absent when the base row is absent). -/
def overlayQueryByKey (s : TxState) (cn : String) (k : Key) : Option Doc :=
  let storageEngineResult := s.base cn k
  let pendingDocumentStateMap := pendingMap s cn
  if pendingDocumentStateMap.isEmpty then storageEngineResult
  else
    match mget pendingDocumentStateMap k with
    | none => storageEngineResult
    | some (.INSERTED _ v) => some v
    | some (.UPDATE_POST_INSERT _ v _) => some v
    | some (.DELETED _ _) => none
    | some (.UPDATED _ _ delta) =>
      match storageEngineResult with
      | none => none
      | some b => some (jsMerge b delta)

/-- The key of a non-CLEAR event (`event.key`). -/
def CDCEvent.eventKey : CDCEvent → Option Key
  | .INSERT _ k _ _ => some k
  | .UPDATE _ k _ _ _ _ => some k
  | .DELETE _ k _ _ => some k
  | .CLEAR _ _ => none

/-- Per-event transformation of EnhancedStorageEngineTransaction.#handlePushCDC
(lines 742-907): events on internal collections, events of a collection with
an empty pending map, CLEAR events, and events whose key has no pending state
pass through; otherwise the event is rewritten (or suppressed) against the
pending state so that it describes the transition of the subscriber-visible
(base plus overlay) view. -/
def transformPushEvent (cmap : String → PendingEntries) (isOptimistic : Bool)
    (e : CDCEvent) : List CDCEvent :=
  if internalNames.contains e.collectionName then [e]
  else if (cmap e.collectionName).isEmpty then [e]
  else
    match e with
    | .CLEAR _ _ => [e]
    | .INSERT cn k value t =>
      match mget (cmap cn) k with
      | none => [e]
      | some (.INSERTED _ pv) =>
        -- preUpdateValue = event.value, delta = pending value
        [.UPDATE cn k (jsMerge value pv) value pv t]
      | some (.UPDATED _ _ pd) => [.INSERT cn k (jsMerge value pd) t]
      | some (.UPDATE_POST_INSERT _ pv _) =>
        -- delta is the pending *value* (line 813 of the source)
        [.UPDATE cn k (jsMerge value pv) value pv t]
      | some (.DELETED _ _) => if isOptimistic then [e] else []
    | .UPDATE cn k post _ delta t =>
      match mget (cmap cn) k with
      | none => [e]
      | some (.INSERTED _ pv) =>
        let pre' := if isOptimistic then pv else post
        let delta' := if isOptimistic then delta else []
        [.UPDATE cn k (jsMerge pre' delta') pre' delta' t]
      | some (.UPDATE_POST_INSERT _ pv _) =>
        let pre' := if isOptimistic then pv else post
        let delta' := if isOptimistic then delta else []
        [.UPDATE cn k (jsMerge pre' delta') pre' delta' t]
      | some (.UPDATED _ pv pd) =>
        let pre' := if isOptimistic then pv else post
        let delta' := if isOptimistic then jsMerge pd delta else jsMerge delta pd
        [.UPDATE cn k (jsMerge pre' delta') pre' delta' t]
      | some (.DELETED _ _) => []
    | .DELETE cn k _ _ =>
      match mget (cmap cn) k with
      | none => [e]
      | some st =>
        if isOptimistic then [e]
        else
          match st with
          | .INSERTED _ _ => []
          | .UPDATE_POST_INSERT _ _ _ => []
          | .UPDATED _ _ _ => [e]
          | .DELETED _ _ => []

/-- EnhancedStorageEngineTransaction.#handlePushCDC: transform each event
against the pending map (computed once for the batch) and append the
survivors to the transaction's CDC buffer. -/
def handlePushCDC (s : TxState) (events : List CDCEvent) (isOptimistic : Bool) :
    TxState :=
  { s with
    cdcEvents :=
      s.cdcEvents ++
        (events.map (transformPushEvent (pendingMap s) isOptimistic)).flatten }

/-- EnhancedStorageEngineTransaction.insert (lines 434-482) on an ordinary
collection: the existence check reads the overlay (or the raw base when
skipOptimisticDataCheck); on success the raw value is written to the base
store and an INSERT CDC event is pushed through #handlePushCDC. The error
cases are the `Document already exists` throw of the source and the
ConstraintError of `store.add` on an existing base row. -/
def txInsert (s : TxState) (cn : String) (k : Key) (value : Doc)
    (emitCDCEvent skipOptimisticDataCheck : Bool) :
    Except String Doc × TxState :=
  let queryResult :=
    if skipOptimisticDataCheck then s.base cn k else overlayQueryByKey s cn k
  if queryResult.isSome then (.error "Document already exists", s)
  else if (s.base cn k).isSome then (.error "ConstraintError", s)
  else
    let s1 := { s with base := bset s.base cn k (some value) }
    if emitCDCEvent then
      let t := s1.ts + 1
      (.ok value, handlePushCDC { s1 with ts := t } [.INSERT cn k value t] false)
    else (.ok value, s1)

/-- EnhancedStorageEngineTransaction.update (lines 484-541) on an ordinary
collection (the `collectionName === "__mutations" && value.isCompleted`
branch, which replays a committing mutation's changes through #handlePushCDC
with isOptimistic = true, cannot trigger here). Absent key in the consulted
view returns null untouched; otherwise the raw KV update merges into the base
row (null when the base row is absent), the UPDATE CDC event is pushed, and
the source's trailing `result!.ts` dereference throws when the raw update
returned null. -/
def txUpdate (s : TxState) (cn : String) (k : Key) (delta : Doc)
    (emitCDCEvent skipOptimisticDataCheck : Bool) :
    Except String (Option Doc) × TxState :=
  let queryResult :=
    if skipOptimisticDataCheck then s.base cn k else overlayQueryByKey s cn k
  match queryResult with
  | none => (.ok none, s)
  | some currentValue =>
    let valueToInsert := jsMerge currentValue delta
    let baseResult := (s.base cn k).map (fun cur => jsMerge cur valueToInsert)
    let s1 :=
      match baseResult with
      | some v => { s with base := bset s.base cn k (some v) }
      | none => s
    let s2 :=
      if emitCDCEvent then
        let t := s1.ts + 1
        handlePushCDC { s1 with ts := t }
          [.UPDATE cn k valueToInsert currentValue delta t] false
      else s1
    match baseResult with
    | none => (.error "TypeError: null result", s2)
    | some _ => (.ok (some valueToInsert), s2)

/-- EnhancedStorageEngineTransaction.delete (lines 543-593) on an ordinary
collection (deleting a __mutations row is txDeleteMutationRow below). Absent
key in the consulted view returns null untouched; otherwise the base row is
removed and a DELETE CDC event is pushed — but only when the overlay view had
the key, even under skipOptimisticDataCheck. -/
def txDelete (s : TxState) (cn : String) (k : Key)
    (emitCDCEvent skipOptimisticDataCheck : Bool) :
    Except String (Option Doc) × TxState :=
  let queryResultWithOptimisticData := overlayQueryByKey s cn k
  let queryResult :=
    if skipOptimisticDataCheck then s.base cn k
    else queryResultWithOptimisticData
  match queryResult with
  | none => (.ok none, s)
  | some storedValue =>
    let s1 := { s with base := bset s.base cn k none }
    let s2 :=
      if emitCDCEvent && queryResultWithOptimisticData.isSome then
        let t := s1.ts + 1
        handlePushCDC { s1 with ts := t } [.DELETE cn k storedValue t] false
      else s1
    (.ok (some storedValue), s2)

/-- EnhancedStorageEngineTransaction.upsert (lines 595-633): update when the
consulted view has the key, insert otherwise. -/
def txUpsert (s : TxState) (cn : String) (k : Key) (value : Doc)
    (emitCDCEvent skipOptimisticDataCheck : Bool) :
    Except String Doc × TxState :=
  let documentResult :=
    if skipOptimisticDataCheck then s.base cn k else overlayQueryByKey s cn k
  if documentResult.isSome then
    match txUpdate s cn k value emitCDCEvent skipOptimisticDataCheck with
    | (.ok (some v), s') => (.ok v, s')
    | (.ok none, s') => (.error "unreachable: update returned null", s')
    | (.error err, s') => (.error err, s')
  else txInsert s cn k value emitCDCEvent skipOptimisticDataCheck

/-- EnhancedStorageEngineTransaction.clear (lines 416-432): clears the base
collection and (when emitCDCEvent) pushes a CLEAR event directly onto the
CDC buffer. -/
def txClear (s : TxState) (cn : String) (emitCDCEvent : Bool) : TxState :=
  let s1 := { s with base := bclear s.base cn }
  if emitCDCEvent then
    let t := s1.ts + 1
    { s1 with ts := t, cdcEvents := s1.cdcEvents ++ [.CLEAR cn t] }
  else s1

/-- Point update of a query-result map (JS `Map.set` / `Map.delete`). -/
def fset (f : Key → Option Doc) (k : Key) (v : Option Doc) : Key → Option Doc :=
  fun k' => if k' == k then v else f k'

/-- The raw KV queryByCondition (IDBStorageEngineTransaction.queryByCondition):
the rows of the collection whose value at the condition's field lies in the
generated key range, as a result map. -/
def baseQueryByCondition (s : TxState) (cn : String) (c : Condition) :
    Key → Option Doc :=
  fun k =>
    match s.base cn k with
    | some d => if condSatisfies c d then some d else none
    | none => none

/-- One iteration of the pending-entry loop of
EnhancedStorageEngineTransaction.queryByCondition (lines 304-347): INSERTED
and UPDATE_POST_INSERT values satisfying the condition are set; a DELETED
entry removes its key when the *pending* value satisfies the condition; an
UPDATED entry merges its delta over the row already in the result (fetching
the overlay row by key when absent and the delta satisfies the condition) and
sets the merge when it satisfies the condition. -/
def applyPendingEntryToConditionResult (s : TxState) (cn : String)
    (c : Condition) (res : Key → Option Doc)
    (entry : Key × PendingDocumentState) : Key → Option Doc :=
  match entry.2 with
  | .INSERTED _ v => if condSatisfies c v then fset res entry.1 (some v) else res
  | .UPDATE_POST_INSERT _ v _ =>
    if condSatisfies c v then fset res entry.1 (some v) else res
  | .DELETED _ v => if condSatisfies c v then fset res entry.1 none else res
  | .UPDATED _ _ delta =>
    let existingDocumentData :=
      match res entry.1 with
      | some e => some e
      | none =>
        if condSatisfies c delta then overlayQueryByKey s cn entry.1 else none
    match existingDocumentData with
    | none => res
    | some e =>
      let mergedValue := jsMerge e delta
      if condSatisfies c mergedValue then fset res entry.1 (some mergedValue)
      else res

/-- EnhancedStorageEngineTransaction.queryByCondition (lines 283-350): the
base condition result folded through the collection's pending entries. -/
def overlayQueryByCondition (s : TxState) (cn : String) (c : Condition) :
    Key → Option Doc :=
  (pendingMap s cn).foldl (applyPendingEntryToConditionResult s cn c)
    (baseQueryByCondition s cn c)

/-- The inverting GC CDC event of one recorded change, from the loop body of
EnhancedStorageEngineTransaction.#handleDeleteDatabaseMutation
(lines 643-728). `queryResult` is the overlay view *after* the mutation row
was removed; `t` is the timestamp the event receives if emitted. For an
UPDATE change the emitted event swaps the recorded pre and post values and
carries as delta the present values of the fields named in the recorded delta
(fields absent from the present row are dropped, as a JS property set to
`undefined` vanishes on storage). -/
def gcEventForChange (s : TxState) (c : PendingMutationChange) (t : Nat) :
    List CDCEvent :=
  let queryResult := overlayQueryByKey s c.meta.collectionName c.meta.key
  let pendingDocumentState := mget (pendingMap s c.meta.collectionName) c.meta.key
  match c with
  | .deleteChange meta _ =>
    match queryResult with
    | none => []
    | some document =>
      if pendingDocumentState.isSome then []
      else [.INSERT meta.collectionName meta.key document t]
  | .insertChange meta value =>
    match queryResult with
    | some _ => []
    | none => [.DELETE meta.collectionName meta.key value t]
  | .updateChange meta preUpdateValue postUpdateValue delta =>
    match queryResult with
    | none => []
    | some presentValue =>
      let preUpdateDelta :=
        delta.filterMap (fun p =>
          (lookupField presentValue p.1).map (fun v => (p.1, v)))
      [.UPDATE meta.collectionName meta.key preUpdateValue postUpdateValue
        preUpdateDelta t]

/-- One iteration of the change loop of #handleDeleteDatabaseMutation: append
the change's inverting event (ticking the timestamp when one is emitted). -/
def gcStep (acc : TxState) (c : PendingMutationChange) : TxState :=
  let evs := gcEventForChange acc c (acc.ts + 1)
  { acc with cdcEvents := acc.cdcEvents ++ evs, ts := acc.ts + evs.length }

/-- EnhancedStorageEngineTransaction.#handleDeleteDatabaseMutation
(lines 635-729): nothing for an uncompleted row; otherwise each recorded
change contributes its inverting event, pushed directly onto the CDC buffer
(the loop performs no writes, so base and mutations are fixed throughout). -/
def handleDeleteDatabaseMutation (s : TxState) (m : DatabaseMutation) :
    TxState :=
  if !m.isCompleted then s
  else m.changes.foldl gcStep s

/-- EnhancedStorageEngineTransaction.delete specialised to the "__mutations"
collection. No pending change of this repository ever targets an internal
collection, so the overlay view of __mutations is its base contents and the
existence check is the row lookup by id. The deletion triggers
 #handleDeleteDatabaseMutation; the raw DELETE CDC event for the __mutations
row itself (an internal-collection event carrying the row, filtered from
every user-visible stream) is elided from the model. -/
def txDeleteMutationRow (s : TxState) (mutationId : Nat) (emitCDCEvent : Bool) :
    Option DatabaseMutation × TxState :=
  match s.mutations.find? (fun m => m.id == mutationId) with
  | none => (none, s)
  | some m =>
    let s1 :=
      { s with mutations := s.mutations.filter (fun m' => !(m'.id == mutationId)) }
    let s2 := if emitCDCEvent then handleDeleteDatabaseMutation s1 m else s1
    (some m, s2)

/-- Outcome of the underlying KV transaction: IDB fires `oncomplete` only for
a committed transaction; an aborted one never completes. -/
inductive TxOutcome
  | committed
  | aborted
deriving DecidableEq, Repr

/-- EnhancedStorageEngineTransaction.rollback (lines 75-79): clears the
publish flag and aborts the underlying KV transaction. -/
def txRollback (s : TxState) : TxState × TxOutcome :=
  ({ s with shouldPublishCDCEvents := false }, .aborted)

/-- EnhancedStorageEngineTransaction.commit (lines 65-73): awaits the durable
completion of the underlying KV transaction. -/
def txCommit (s : TxState) : TxState × TxOutcome :=
  (s, .committed)

/-- The events handed to the transaction's onComplete callbacks (and through
them to the storage-engine CDC subscribers wired in
IDBStorageEngine.startTransaction): the underlying transaction's oncomplete
fires only when it committed, and the wrapper registered in the constructor
(lines 50-54) forwards the buffered events only while
 #shouldPublishCDCEvents holds. -/
def deliveredCDCEvents (s : TxState) (outcome : TxOutcome) :
    Option (List CDCEvent) :=
  match outcome with
  | .committed =>
    if s.shouldPublishCDCEvents then some s.cdcEvents else none
  | .aborted => none

/-- A write issued on the overlay transaction (used to quantify over the
body of a transaction). -/
inductive TxOp
  | insertOp (cn : String) (k : Key) (value : Doc) (emit skip : Bool)
  | updateOp (cn : String) (k : Key) (delta : Doc) (emit skip : Bool)
  | deleteOp (cn : String) (k : Key) (emit skip : Bool)
  | clearOp (cn : String) (emit : Bool)
  | deleteMutationOp (mutationId : Nat) (emit : Bool)
deriving DecidableEq, Repr

/-- Running one write on the transaction state (an operation that throws has
already applied exactly the effects preceding the throw, which the op
functions record in their returned state). -/
def runTxOp (s : TxState) (op : TxOp) : TxState :=
  match op with
  | .insertOp cn k v e sk => (txInsert s cn k v e sk).2
  | .updateOp cn k d e sk => (txUpdate s cn k d e sk).2
  | .deleteOp cn k e sk => (txDelete s cn k e sk).2
  | .clearOp cn e => txClear s cn e
  | .deleteMutationOp mid e => (txDeleteMutationRow s mid e).2

/-- A freshly started EnhancedStorageEngineTransaction over the given durable
contents: publish flag set, empty CDC buffer. -/
def freshTx (base : String → Key → Option Doc)
    (mutations : List DatabaseMutation) : TxState :=
  ⟨base, mutations, [], true, 0⟩

/-- QueryOption (src/types/Query.ts): a document query or a collection query
with an optional filter (the filterOption's validated where-clause is the
Condition the `condition` getter of Query constructs from it). -/
inductive QueryOption
  | get (collectionName : String) (key : Key)
  | getAll (collectionName : String) (filterOption : Option Condition)
deriving DecidableEq, Repr

def QueryOption.collectionName : QueryOption → String
  | .get cn _ => cn
  | .getAll cn _ => cn

/-- The `condition` getter of Query (lines 148-158): undefined for a document
query or an unfiltered collection query. -/
def QueryOption.condition : QueryOption → Option Condition
  | .get _ _ => none
  | .getAll _ fo => fo

/-- Query.#doesCollectionCDCEventAffectResult (lines 160-186): wrong
collection no; CLEAR yes; document query compares keys; unfiltered collection
query yes; filtered query tests the condition on postUpdateValue for UPDATE
and on event.value otherwise. -/
def doesCollectionCDCEventAffectResult (opt : QueryOption) (e : CDCEvent) :
    Bool :=
  if !(e.collectionName == opt.collectionName) then false
  else
    match e with
    | .CLEAR _ _ => true
    | _ =>
      match opt with
      | .get _ qk => e.eventKey == some qk
      | .getAll _ none => true
      | .getAll _ (some cond) =>
        match e with
        | .UPDATE _ _ post _ _ _ => condSatisfies cond post
        | .INSERT _ _ v _ => condSatisfies cond v
        | .DELETE _ _ v _ => condSatisfies cond v
        | .CLEAR _ _ => true

/-- Whether the option is a document query on the given key
(isQueryOptionDocumentQueryOption plus the key comparison of the source). -/
def QueryOption.isDocQueryOn (opt : QueryOption) (k : Key) : Bool :=
  match opt with
  | .get _ qk => k == qk
  | .getAll _ _ => false

/-- The success-state portion of Query.#handleCDCEventForCollection
(lines 196-365) acting on the cached result map #storageEngineResult (the
QueryResultChange list the source also accumulates is not modelled; the
claims concern the cached result). The doc-query / unfiltered / filtered
fall-through of each action block is translated literally. -/
def handleQueryCDCEvent (opt : QueryOption) (cache : Key → Option Doc)
    (e : CDCEvent) : Key → Option Doc :=
  match e with
  | .CLEAR _ _ => fun _ => none
  | .DELETE _ k v _ =>
    if opt.isDocQueryOn k then fset cache k none
    else
      match opt.condition with
      | none => fset cache k none
      | some cond =>
        if condSatisfies cond v then fset cache k none else cache
  | .INSERT _ k v _ =>
    if opt.isDocQueryOn k then fset cache k (some v)
    else
      match opt.condition with
      | none => fset cache k (some v)
      | some cond =>
        if condSatisfies cond v then fset cache k (some v) else cache
  | .UPDATE _ k _ _ delta _ =>
    match cache k with
    | none => cache
    | some storageEngineValue =>
      let postUpdateValue := jsMerge storageEngineValue delta
      if opt.isDocQueryOn k then fset cache k (some postUpdateValue)
      else
        match opt.condition with
        | none => fset cache k (some postUpdateValue)
        | some cond =>
          if condSatisfies cond postUpdateValue then
            fset cache k (some postUpdateValue)
          else cache

/-- One iteration of Query.updateResultFromCDCEvents (lines 367-384): skip
events of another collection, skip events that do not affect the result,
apply the rest. -/
def updateQueryCacheStep (opt : QueryOption) (cache : Key → Option Doc)
    (e : CDCEvent) : Key → Option Doc :=
  if !(e.collectionName == opt.collectionName) then cache
  else if !(doesCollectionCDCEventAffectResult opt e) then cache
  else handleQueryCDCEvent opt cache e

/-- Query.updateResultFromCDCEvents applied to the cached result map. -/
def updateQueryCacheFromCDCEvents (opt : QueryOption)
    (cache : Key → Option Doc) (events : List CDCEvent) : Key → Option Doc :=
  events.foldl (updateQueryCacheStep opt) cache

/-- The per-collection contents of the observable store. -/
abbrev CStore := String → Key → Option Doc

/-- Evaluating a query from scratch against a store: the initial
 #storageEngineResult a Query obtains from its injected read — the single row
for a document query (queryByKey), the whole collection for an unfiltered
collection query (queryAll), the rows satisfying the condition for a filtered
one (queryByCondition). -/
def evalQuery (opt : QueryOption) (st : CStore) : Key → Option Doc :=
  match opt with
  | .get cn qk => fun k => if k == qk then st cn qk else none
  | .getAll cn none => st cn
  | .getAll cn (some cond) => fun k =>
    match st cn k with
    | some d => if condSatisfies cond d then some d else none
    | none => none

/-- The effect on the observable store of the write that emitted a CDC event:
INSERT stores the value, DELETE removes the row, CLEAR empties the
collection, UPDATE merges the event's delta into the existing row (an
EnhancedStorageEngineTransaction.update writes base merged with delta and
only emits when the row existed). -/
def applyCDCEventToStore (st : CStore) (e : CDCEvent) : CStore :=
  match e with
  | .INSERT cn k v _ => bset st cn k (some v)
  | .DELETE cn k _ _ => bset st cn k none
  | .CLEAR cn _ => bclear st cn
  | .UPDATE cn k _ _ delta _ =>
    match st cn k with
    | none => st
    | some cur => bset st cn k (some (jsMerge cur delta))

/-- One per-collection operation of a pull response
(src/types/SyncManager.ts). -/
inductive RemoteOperation
  | clearAction
  | createdAction (key : Key) (value : Doc)
  | updatedAction (key : Key) (value : Doc)
  | deletedAction (key : Key)
deriving DecidableEq, Repr

/-- A puller response: per-collection operations (keyed by the schema
collection's name, to which SyncManager resolves the identifier), the
optional new cursor, and the last server-processed mutation id. -/
structure PullResponse where
  change : List (String × List RemoteOperation)
  cursor : Option Int
  lastProcessedMutationId : Nat

/-- SyncManager.#applyRemoteChange, one operation (lines 248-268): CLEAR
clears, CREATED and UPDATED upsert authoritatively (skipOptimisticDataCheck),
DELETED deletes authoritatively. -/
def applyRemoteOperation (s : TxState) (cn : String) (op : RemoteOperation) :
    TxState :=
  match op with
  | .clearAction => txClear s cn true
  | .createdAction k v => (txUpsert s cn k v true true).2
  | .updatedAction k v => (txUpsert s cn k v true true).2
  | .deletedAction k => (txDelete s cn k true true).2

/-- SyncManager.#applyRemoteChange (lines 229-280): every operation of every
collection in order, then the cursor upserted at `__meta.cursor` when
present. -/
def applyRemoteChange (s : TxState)
    (change : List (String × List RemoteOperation)) (cursor : Option Int) :
    TxState :=
  let s1 :=
    change.foldl
      (fun acc p => p.2.foldl (fun a op => applyRemoteOperation a p.1 op) acc) s
  match cursor with
  | some c => (txUpsert s1 "__meta" "cursor" [("cursor", c)] true false).2
  | none => s1

/-- The GC predicate of SyncManager.pull (lines 446-449): a pushed mutation
whose defined serverMutationId is at most the response's
lastProcessedMutationId. -/
def shouldRemoveMutation (lastProcessedMutationId : Nat)
    (m : DatabaseMutation) : Bool :=
  m.isPushed &&
    (match m.serverMutationId with
     | some sid => decide (sid ≤ lastProcessedMutationId)
     | none => false)

/-- The transaction body SyncManager.pull runs under the pull lock
(lines 439-467): iterate the snapshot of the mutation rows, deleting every
acknowledged one (emitCDCEvent defaulted, so the GC CDC of
 #handleDeleteDatabaseMutation fires), then apply the remote change and the
cursor. -/
def pullTxBody (s : TxState) (resp : PullResponse) : TxState :=
  let s1 :=
    s.mutations.foldl
      (fun acc m =>
        if shouldRemoveMutation resp.lastProcessedMutationId m then
          (txDeleteMutationRow acc m.id true).2
        else acc)
      s
  applyRemoteChange s1 resp.change resp.cursor

/-- The lock entry LockController writes (LockMeta of InternalSchema.ts). -/
structure LockMeta where
  locked : Bool
  id : String
deriving DecidableEq, Repr

/-- The persistent lock storage: name to entry. -/
abbrev LockStorage := String → Option LockMeta

/-- The tail of LockController.request (LockController.ts lines 126-133),
entered once the wait loop has observed the lock to be free: write
`\x7blocked: true, id: own id\x7d`, run the callback on the resulting
storage, and remove the entry only after the callback resolves. The callback
is a storage transformation returning `none` on success or `some err` when it
throws, in which case the source has no catch or finally: the error
propagates and the removal never runs. -/
def lockRequestAcquired (storage : LockStorage) (lockName ownId : String)
    (callback : LockStorage → Option String × LockStorage) :
    Option String × LockStorage :=
  let s1 : LockStorage := fun n =>
    if n == lockName then some ⟨true, ownId⟩ else storage n
  let r := callback s1
  match r.1 with
  | some err => (some err, r.2)
  | none => (none, fun n => if n == lockName then none else r.2 n)

/-! Theorems. -/

theorem mget_mset_self {α : Type} (l : List (Key × α)) (k : Key) (v : α) :
    mget (mset l k v) k = some v := by
  unfold mset
  by_cases h : l.any (fun p => p.1 == k)
  · rw [if_pos h]
    unfold mget
    induction l with
    | nil => simp at h
    | cons p t ih =>
      rw [List.map_cons]
      by_cases hp : p.1 == k
      · rw [if_pos hp]
        simp [List.find?_cons]
      · rw [if_neg hp]
        have hb : (p.1 == k) = false := by simpa using hp
        rw [List.find?_cons, hb]
        apply ih
        simpa [List.any_cons, hb] using h
  · rw [if_neg h]
    unfold mget
    have hnone : l.find? (fun p => p.1 == k) = none := by
      rw [List.find?_eq_none]
      intro x hx
      intro hxk
      exact h (List.any_eq_true.mpr ⟨x, hx, hxk⟩)
    rw [List.find?_append, hnone]
    simp [List.find?_cons]

/-- C2: EnhancedStorageEngineTransaction.queryByKey — INSERTED and
UPDATE_POST_INSERT pending states return the pending value, DELETED yields no
entry, UPDATED merges the pending delta over the base row when one exists and
yields no entry otherwise, and without a pending state the result is the base
KV result. -/
theorem overlay_queryByKey_pending_semantics (s : TxState) (cn : String)
    (k : Key) :
    overlayQueryByKey s cn k =
      match mget (pendingMap s cn) k with
      | some (.INSERTED _ v) => some v
      | some (.UPDATE_POST_INSERT _ v _) => some v
      | some (.DELETED _ _) => none
      | some (.UPDATED _ _ delta) =>
        (s.base cn k).map (fun b => jsMerge b delta)
      | none => s.base cn k := by
  unfold overlayQueryByKey
  by_cases h : (pendingMap s cn).isEmpty
  · have hnil : pendingMap s cn = [] := by
      cases hp : pendingMap s cn with
      | nil => rfl
      | cons a t => rw [hp] at h; simp [List.isEmpty] at h
    rw [hnil]
    simp [mget]
  · simp only [h, if_false]
    cases hm : mget (pendingMap s cn) k with
    | none => rfl
    | some st =>
      cases st with
      | INSERTED _ v => rfl
      | UPDATE_POST_INSERT _ v d => rfl
      | DELETED _ v => rfl
      | UPDATED _ v d => cases s.base cn k <;> rfl

/-- C5 (amended): during the pending-state fold, when the prior pending state
at a key is DELETED, an INSERT change produces INSERTED with the change's
value, an UPDATE change is ignored, and a DELETE change produces DELETED with
the change's value (replacing the recorded value; the state is unchanged only
when the change carries the same value). -/
theorem pendingFold_step_on_deleted (dm : PendingEntries) (meta : ChangeMeta)
    (v : Doc) (h : mget dm meta.key = some (.DELETED meta.key v)) :
    (∀ value,
      mget (applyPendingChangeToMap dm (.insertChange meta value)) meta.key =
        some (.INSERTED meta.key value)) ∧
    (∀ pre post delta,
      applyPendingChangeToMap dm (.updateChange meta pre post delta) = dm) ∧
    (∀ value,
      mget (applyPendingChangeToMap dm (.deleteChange meta value)) meta.key =
        some (.DELETED meta.key value)) := by
  refine ⟨fun value => ?_, fun pre post delta => ?_, fun value => ?_⟩
  · simp only [applyPendingChangeToMap, PendingMutationChange.meta]
    exact mget_mset_self dm meta.key _
  · simp only [applyPendingChangeToMap, PendingMutationChange.meta, h]
  · simp only [applyPendingChangeToMap, PendingMutationChange.meta]
    exact mget_mset_self dm meta.key _

theorem pendingFold_step_on_deleted_witness :
    (mget [("k1", PendingDocumentState.DELETED "k1" [("f", 1)])] "k1" =
        some (.DELETED "k1" [("f", 1)]) ∧
      mget
          (applyPendingChangeToMap
            [("k1", PendingDocumentState.DELETED "k1" [("f", 1)])]
            (.insertChange ⟨"todo", "k1", 2, 5⟩ [("g", 2)])) "k1" =
        some (.INSERTED "k1" [("g", 2)])) ∧
    applyPendingChangeToMap
        [("k1", PendingDocumentState.DELETED "k1" [("f", 1)])]
        (.updateChange ⟨"todo", "k1", 2, 5⟩ [("f", 1)] [("f", 3)] [("f", 3)]) =
      [("k1", PendingDocumentState.DELETED "k1" [("f", 1)])] := by
  refine ⟨⟨by decide, ?_⟩, ?_⟩
  · exact (pendingFold_step_on_deleted _ ⟨"todo", "k1", 2, 5⟩ [("f", 1)]
      (by decide)).1 [("g", 2)]
  · exact ((pendingFold_step_on_deleted _ ⟨"todo", "k1", 2, 5⟩ [("f", 1)]
      (by decide)).2.1) [("f", 1)] [("f", 3)] [("f", 3)]

/-- C5 counterexample: a DELETE change over a pending DELETED state does not
leave the pending state unchanged — it replaces the recorded value with the
change's value. -/
theorem pendingFold_deleteOnDeleted_changes_state :
    applyPendingChangeToMap
        [("k1", PendingDocumentState.DELETED "k1" [("f", 1)])]
        (.deleteChange ⟨"todo", "k1", 2, 5⟩ [("f", 2)]) ≠
      [("k1", PendingDocumentState.DELETED "k1" [("f", 1)])] := by
  decide

theorem isEmpty_eq_false_of_mget_some {α : Type} {l : List (Key × α)} {k : Key}
    {x : α} (h : mget l k = some x) : l.isEmpty = false := by
  cases l with
  | nil => simp [mget] at h
  | cons a t => rfl

theorem transformPushEvent_insert_on_updated (cmap : String → PendingEntries)
    (cn : String) (k : Key) (value pv pd : Doc) (t : Nat)
    (hcn : internalNames.contains cn = false)
    (hm : mget (cmap cn) k = some (.UPDATED k pv pd)) :
    transformPushEvent cmap false (.INSERT cn k value t) =
      [.INSERT cn k (jsMerge value pd) t] := by
  unfold transformPushEvent
  simp only [CDCEvent.collectionName, hcn, Bool.false_eq_true, if_false,
    isEmpty_eq_false_of_mget_some hm, hm]

/-- C3: an authoritative insert (skipOptimisticDataCheck) at a key whose
pending state is UPDATED with delta d succeeds, records the single CDC INSERT
event carrying the raw value merged with d (d's fields winning), and leaves
the raw, unmerged value in the base store. -/
theorem authoritative_insert_over_pending_update (s : TxState) (cn : String)
    (k : Key) (raw pv d : Doc)
    (hcn : internalNames.contains cn = false)
    (hbase : s.base cn k = none)
    (hpending : mget (pendingMap s cn) k = some (.UPDATED k pv d)) :
    (txInsert s cn k raw true true).1 = .ok raw ∧
    (txInsert s cn k raw true true).2.cdcEvents =
      s.cdcEvents ++ [.INSERT cn k (jsMerge raw d) (s.ts + 1)] ∧
    (txInsert s cn k raw true true).2.base cn k = some raw := by
  have hmain : txInsert s cn k raw true true =
      (.ok raw,
        handlePushCDC
          { s with base := bset s.base cn k (some raw), ts := s.ts + 1 }
          [.INSERT cn k raw (s.ts + 1)] false) := by
    unfold txInsert
    rw [hbase]
    rfl
  rw [hmain]
  have hpending' :
      mget
          (pendingMap
            { s with base := bset s.base cn k (some raw), ts := s.ts + 1 } cn)
          k =
        some (.UPDATED k pv d) := hpending
  refine ⟨rfl, ?_, ?_⟩
  · show (handlePushCDC _ _ _).cdcEvents = _
    unfold handlePushCDC
    simp only [List.map_cons, List.map_nil]
    rw [transformPushEvent_insert_on_updated _ _ _ _ pv _ _ hcn hpending']
    simp
  · show (handlePushCDC _ _ _).base cn k = _
    unfold handlePushCDC
    simp [bset]

theorem authoritative_insert_over_pending_update_witness :
    internalNames.contains "todo" = false ∧
    (freshTx (fun _ _ => none)
        [⟨1, ["todo"], "updateTodo", [], true, false, 0,
          [.updateChange ⟨"todo", "k1", 1, 1⟩ [("title", 1)] [("title", 2)]
            [("title", 2)]], none, none⟩]).base "todo" "k1" = none ∧
    mget
        (pendingMap
          (freshTx (fun _ _ => none)
            [⟨1, ["todo"], "updateTodo", [], true, false, 0,
              [.updateChange ⟨"todo", "k1", 1, 1⟩ [("title", 1)] [("title", 2)]
                [("title", 2)]], none, none⟩]) "todo") "k1" =
      some (.UPDATED "k1" [("title", 2)] [("title", 2)]) ∧
    ((txInsert
          (freshTx (fun _ _ => none)
            [⟨1, ["todo"], "updateTodo", [], true, false, 0,
              [.updateChange ⟨"todo", "k1", 1, 1⟩ [("title", 1)] [("title", 2)]
                [("title", 2)]], none, none⟩]) "todo" "k1"
          [("title", 10), ("status", 5)] true true).1 =
        .ok [("title", 10), ("status", 5)] ∧
      (txInsert
          (freshTx (fun _ _ => none)
            [⟨1, ["todo"], "updateTodo", [], true, false, 0,
              [.updateChange ⟨"todo", "k1", 1, 1⟩ [("title", 1)] [("title", 2)]
                [("title", 2)]], none, none⟩]) "todo" "k1"
          [("title", 10), ("status", 5)] true true).2.cdcEvents =
        (freshTx (fun _ _ => none)
            [⟨1, ["todo"], "updateTodo", [], true, false, 0,
              [.updateChange ⟨"todo", "k1", 1, 1⟩ [("title", 1)] [("title", 2)]
                [("title", 2)]], none, none⟩]).cdcEvents ++
          [.INSERT "todo" "k1"
            (jsMerge [("title", 10), ("status", 5)] [("title", 2)])
            ((freshTx (fun _ _ => none)
              [⟨1, ["todo"], "updateTodo", [], true, false, 0,
                [.updateChange ⟨"todo", "k1", 1, 1⟩ [("title", 1)] [("title", 2)]
                  [("title", 2)]], none, none⟩]).ts + 1)] ∧
      (txInsert
          (freshTx (fun _ _ => none)
            [⟨1, ["todo"], "updateTodo", [], true, false, 0,
              [.updateChange ⟨"todo", "k1", 1, 1⟩ [("title", 1)] [("title", 2)]
                [("title", 2)]], none, none⟩]) "todo" "k1"
          [("title", 10), ("status", 5)] true true).2.base "todo" "k1" =
        some [("title", 10), ("status", 5)]) :=
  ⟨by decide, by decide, by decide,
    authoritative_insert_over_pending_update _ "todo" "k1"
      [("title", 10), ("status", 5)] [("title", 2)] [("title", 2)] (by decide)
      (by decide) (by decide)⟩

/-- C9: an update or delete whose key is absent from the consulted view (the
overlay by default, the raw base under skipOptimisticDataCheck) returns null,
performs no write, and appends no CDC event — the transaction state is left
untouched. -/
theorem update_delete_missing_key_noop (s : TxState) (cn : String) (k : Key)
    (delta : Doc) (emit skip : Bool)
    (h : (if skip then s.base cn k else overlayQueryByKey s cn k) = none) :
    txUpdate s cn k delta emit skip = (.ok none, s) ∧
    txDelete s cn k emit skip = (.ok none, s) := by
  constructor
  · unfold txUpdate
    rw [h]
  · simp only [txDelete]
    rw [h]

theorem update_delete_missing_key_noop_witness :
    (if false then (freshTx (fun _ _ => none) []).base "todo" "k1"
     else overlayQueryByKey (freshTx (fun _ _ => none) []) "todo" "k1") =
      none ∧
    txUpdate (freshTx (fun _ _ => none) []) "todo" "k1" [("f", 1)] true false =
      (.ok none, freshTx (fun _ _ => none) []) ∧
    txDelete (freshTx (fun _ _ => none) []) "todo" "k1" true false =
      (.ok none, freshTx (fun _ _ => none) []) :=
  ⟨by decide,
    (update_delete_missing_key_noop (freshTx (fun _ _ => none) []) "todo" "k1"
      [("f", 1)] true false (by decide)).1,
    (update_delete_missing_key_noop (freshTx (fun _ _ => none) []) "todo" "k1"
      [("f", 1)] true false (by decide)).2⟩

theorem mset_keys_nodup {α : Type} (l : List (Key × α)) (k : Key) (v : α)
    (h : (l.map Prod.fst).Nodup) : ((mset l k v).map Prod.fst).Nodup := by
  unfold mset
  by_cases hany : l.any (fun p => p.1 == k)
  · rw [if_pos hany]
    have hkeys :
        ((l.map (fun p => if p.1 == k then (k, v) else p)).map Prod.fst) =
          l.map Prod.fst := by
      rw [List.map_map]
      apply List.map_congr_left
      intro p _
      by_cases hp : p.1 = k
      · subst hp
        simp
      · simp [hp]
    rw [hkeys]
    exact h
  · rw [if_neg hany]
    rw [List.map_append]
    rw [List.nodup_append]
    refine ⟨h, by simp, ?_⟩
    intro a ha
    simp only [List.map_cons, List.map_nil, List.mem_singleton]
    intro hak
    subst hak
    rcases List.mem_map.mp ha with ⟨p, hp, hpk⟩
    exact hany (List.any_eq_true.mpr ⟨p, hp, by simp [hpk]⟩)

theorem applyPendingChangeToMap_keys_nodup (dm : PendingEntries)
    (c : PendingMutationChange) (h : (dm.map Prod.fst).Nodup) :
    (((applyPendingChangeToMap dm c).map Prod.fst)).Nodup := by
  cases c with
  | insertChange meta value =>
    simp only [applyPendingChangeToMap]
    exact mset_keys_nodup dm _ _ h
  | deleteChange meta value =>
    simp only [applyPendingChangeToMap]
    exact mset_keys_nodup dm _ _ h
  | updateChange meta pre post delta =>
    simp only [applyPendingChangeToMap]
    cases hm : mget dm meta.key with
    | none => exact mset_keys_nodup dm _ _ h
    | some st =>
      cases st with
      | INSERTED _ v => exact mset_keys_nodup dm _ _ h
      | DELETED _ v => exact h
      | UPDATED _ v d => exact mset_keys_nodup dm _ _ h
      | UPDATE_POST_INSERT _ v d => exact mset_keys_nodup dm _ _ h

theorem buildPendingCollectionMap_keys_nodup
    (mutations : List DatabaseMutation) (cn : String) :
    (((buildPendingCollectionMap mutations cn).map Prod.fst)).Nodup := by
  unfold buildPendingCollectionMap
  generalize sortedCompletedChanges mutations = l
  have main : ∀ (l : List PendingMutationChange)
      (cmap : String → PendingEntries),
      (∀ cn', ((cmap cn').map Prod.fst).Nodup) →
      ∀ cn', ((((l.foldl
        (fun cmap c => fun cn'' =>
          if cn'' == c.meta.collectionName then
            applyPendingChangeToMap (cmap cn'') c
          else cmap cn'') cmap) cn').map Prod.fst)).Nodup := by
    intro l
    induction l with
    | nil => intro cmap h cn'; exact h cn'
    | cons c t ih =>
      intro cmap h cn'
      rw [List.foldl_cons]
      apply ih
      intro cn''
      by_cases hc : cn'' == c.meta.collectionName
      · rw [if_pos hc]
        exact applyPendingChangeToMap_keys_nodup _ _ (h cn'')
      · rw [if_neg hc]
        exact h cn''
  exact main l (fun _ => []) (fun _ => by simp) cn

theorem mget_eq_some_split {α : Type} {l : List (Key × α)} {k : Key} {x : α}
    (h : mget l k = some x) :
    ∃ l1 l2, l = l1 ++ (k, x) :: l2 ∧ ∀ p ∈ l1, ¬(p.1 == k) = true := by
  induction l with
  | nil => simp [mget] at h
  | cons p t ih =>
    by_cases hp : p.1 == k
    · have hk : p.1 = k := by simpa using hp
      have hx : p.2 = x := by
        unfold mget at h
        rw [List.find?_cons, hp] at h
        simpa using h
      refine ⟨[], t, ?_, by simp⟩
      rw [← hk, ← hx]
      rfl
    · have hb : (p.1 == k) = false := by simpa using hp
      have ht : mget t k = some x := by
        unfold mget at h ⊢
        rwa [List.find?_cons, hb] at h
      rcases ih ht with ⟨l1, l2, heq, hl1⟩
      refine ⟨p :: l1, l2, by rw [heq]; rfl, ?_⟩
      intro q hq
      rcases List.mem_cons.mp hq with hq | hq
      · subst hq; exact hp
      · exact hl1 q hq

theorem applyPendingEntry_preserves_other_key (s : TxState) (cn : String)
    (c : Condition) (res : Key → Option Doc)
    (entry : Key × PendingDocumentState) (k : Key)
    (h : ¬(entry.1 == k) = true) :
    applyPendingEntryToConditionResult s cn c res entry k = res k := by
  rcases entry with ⟨ek, st⟩
  have h' : ¬(ek = k) := by simpa using h
  have hne : (k == ek) = false := beq_eq_false_iff_ne.mpr (fun e => h' e.symm)
  cases st with
  | INSERTED _ v =>
    by_cases hc : condSatisfies c v = true <;>
      simp [applyPendingEntryToConditionResult, hc, fset, hne]
  | UPDATE_POST_INSERT _ v d =>
    by_cases hc : condSatisfies c v = true <;>
      simp [applyPendingEntryToConditionResult, hc, fset, hne]
  | DELETED _ v =>
    by_cases hc : condSatisfies c v = true <;>
      simp [applyPendingEntryToConditionResult, hc, fset, hne]
  | UPDATED _ v d =>
    cases hre : res ek <;>
      by_cases hcd : condSatisfies c d = true <;>
      cases hov : overlayQueryByKey s cn ek <;>
      simp only [applyPendingEntryToConditionResult, hre, hcd, hov, if_true,
        if_false] <;>
      first
      | rfl
      | (split <;> simp [fset, hne])

theorem conditionFold_preserves_key (s : TxState) (cn : String) (c : Condition)
    (k : Key) :
    ∀ (l : PendingEntries) (res : Key → Option Doc),
      (∀ p ∈ l, ¬(p.1 == k) = true) →
      (l.foldl (applyPendingEntryToConditionResult s cn c) res) k = res k := by
  intro l
  induction l with
  | nil => intro res _; rfl
  | cons p t ih =>
    intro res h
    rw [List.foldl_cons]
    rw [ih _ (fun q hq => h q (List.mem_cons_of_mem p hq))]
    exact applyPendingEntry_preserves_other_key s cn c res p k
      (h p (List.mem_cons_self p t))

/-- C4 (amended): in queryByCondition, a key whose pending state is DELETED is
absent from the result whenever the *recorded pending value* of the DELETE
satisfies the condition (the source tests the pending value, not the base
row). -/
theorem queryByCondition_drops_deleted_with_matching_pending_value
    (s : TxState) (cn : String) (c : Condition) (k : Key) (v : Doc)
    (hpending : mget (pendingMap s cn) k = some (.DELETED k v))
    (hsat : condSatisfies c v = true) :
    overlayQueryByCondition s cn c k = none := by
  obtain ⟨l1, l2, heq, hl1⟩ := mget_eq_some_split hpending
  have hnodup : (((pendingMap s cn).map Prod.fst)).Nodup :=
    buildPendingCollectionMap_keys_nodup s.mutations cn
  have hl2 : ∀ p ∈ l2, ¬(p.1 == k) = true := by
    rw [heq, List.map_append] at hnodup
    have hr := hnodup.of_append_right
    rw [List.map_cons] at hr
    have hknotin : k ∉ l2.map Prod.fst := (List.nodup_cons.mp hr).1
    intro p hp hpk
    exact hknotin (List.mem_map.mpr ⟨p, hp, by simpa using hpk⟩)
  unfold overlayQueryByCondition
  rw [heq, List.foldl_append, List.foldl_cons]
  rw [conditionFold_preserves_key s cn c k l2 _ hl2]
  simp [applyPendingEntryToConditionResult, hsat, fset]

theorem queryByCondition_drops_deleted_witness :
    mget
        (pendingMap
          (freshTx (fun _ _ => none)
            [⟨1, ["todo"], "deleteTodo", [], true, false, 0,
              [.deleteChange ⟨"todo", "k1", 1, 1⟩ [("f", 1)]], none, none⟩])
          "todo") "k1" =
      some (.DELETED "k1" [("f", 1)]) ∧
    condSatisfies ⟨"f", .eq, 1⟩ [("f", 1)] = true ∧
    overlayQueryByCondition
        (freshTx (fun _ _ => none)
          [⟨1, ["todo"], "deleteTodo", [], true, false, 0,
            [.deleteChange ⟨"todo", "k1", 1, 1⟩ [("f", 1)]], none, none⟩])
        "todo" ⟨"f", .eq, 1⟩ "k1" = none :=
  ⟨by decide, by decide,
    queryByCondition_drops_deleted_with_matching_pending_value _ "todo"
      ⟨"f", .eq, 1⟩ "k1" [("f", 1)] (by decide) (by decide)⟩

/-- C4 counterexample: the base row at k1 satisfies the condition (so k1 is in
the base KV result), the pending state at k1 is DELETED, yet the key is still
present in the overlay queryByCondition result, because the removal tests the
recorded pending value (here not satisfying) instead of the base row. -/
theorem queryByCondition_deleted_key_not_dropped :
    baseQueryByCondition
        (freshTx
          (fun cn k => if cn == "todo" && k == "k1" then some [("f", 1)] else none)
          [⟨1, ["todo"], "deleteTodo", [], true, false, 0,
            [.deleteChange ⟨"todo", "k1", 1, 1⟩ [("f", 2)]], none, none⟩])
        "todo" ⟨"f", .eq, 1⟩ "k1" = some [("f", 1)] ∧
    mget
        (pendingMap
          (freshTx
            (fun cn k =>
              if cn == "todo" && k == "k1" then some [("f", 1)] else none)
            [⟨1, ["todo"], "deleteTodo", [], true, false, 0,
              [.deleteChange ⟨"todo", "k1", 1, 1⟩ [("f", 2)]], none, none⟩])
          "todo") "k1" =
      some (.DELETED "k1" [("f", 2)]) ∧
    overlayQueryByCondition
        (freshTx
          (fun cn k => if cn == "todo" && k == "k1" then some [("f", 1)] else none)
          [⟨1, ["todo"], "deleteTodo", [], true, false, 0,
            [.deleteChange ⟨"todo", "k1", 1, 1⟩ [("f", 2)]], none, none⟩])
        "todo" ⟨"f", .eq, 1⟩ "k1" = some [("f", 1)] := by
  refine ⟨by decide, by decide, by decide⟩

theorem handleDeleteDatabaseMutation_shouldPublish (s : TxState)
    (m : DatabaseMutation) :
    (handleDeleteDatabaseMutation s m).shouldPublishCDCEvents =
      s.shouldPublishCDCEvents := by
  unfold handleDeleteDatabaseMutation
  split
  · rfl
  · generalize m.changes = l
    induction l generalizing s with
    | nil => rfl
    | cons c t ih =>
      rw [List.foldl_cons]
      exact ih _

theorem txInsert_shouldPublish (s : TxState) (cn : String) (k : Key) (v : Doc)
    (e sk : Bool) :
    (txInsert s cn k v e sk).2.shouldPublishCDCEvents =
      s.shouldPublishCDCEvents := by
  simp only [txInsert]
  repeat' split
  all_goals rfl

theorem txUpdate_shouldPublish (s : TxState) (cn : String) (k : Key) (d : Doc)
    (e sk : Bool) :
    (txUpdate s cn k d e sk).2.shouldPublishCDCEvents =
      s.shouldPublishCDCEvents := by
  simp only [txUpdate]
  repeat' split
  all_goals rfl

theorem txDelete_shouldPublish (s : TxState) (cn : String) (k : Key)
    (e sk : Bool) :
    (txDelete s cn k e sk).2.shouldPublishCDCEvents =
      s.shouldPublishCDCEvents := by
  simp only [txDelete]
  repeat' split
  all_goals rfl

theorem txClear_shouldPublish (s : TxState) (cn : String) (e : Bool) :
    (txClear s cn e).shouldPublishCDCEvents = s.shouldPublishCDCEvents := by
  simp only [txClear]
  split
  all_goals rfl

theorem txDeleteMutationRow_shouldPublish (s : TxState) (mid : Nat) (e : Bool) :
    (txDeleteMutationRow s mid e).2.shouldPublishCDCEvents =
      s.shouldPublishCDCEvents := by
  simp only [txDeleteMutationRow]
  split
  · rfl
  · split
    · exact handleDeleteDatabaseMutation_shouldPublish _ _
    · rfl

theorem runTxOp_shouldPublish (s : TxState) (op : TxOp) :
    (runTxOp s op).shouldPublishCDCEvents = s.shouldPublishCDCEvents := by
  cases op with
  | insertOp cn k v e sk => exact txInsert_shouldPublish s cn k v e sk
  | updateOp cn k d e sk => exact txUpdate_shouldPublish s cn k d e sk
  | deleteOp cn k e sk => exact txDelete_shouldPublish s cn k e sk
  | clearOp cn e => exact txClear_shouldPublish s cn e
  | deleteMutationOp mid e => exact txDeleteMutationRow_shouldPublish s mid e

theorem runTxOps_shouldPublish (ops : List TxOp) (s : TxState) :
    (ops.foldl runTxOp s).shouldPublishCDCEvents =
      s.shouldPublishCDCEvents := by
  induction ops generalizing s with
  | nil => rfl
  | cons op t ih =>
    rw [List.foldl_cons, ih, runTxOp_shouldPublish]

/-- C7: whatever writes a fresh overlay transaction performs, after rollback()
no CDC events are delivered (the onComplete callbacks — and through them the
storage-engine subscribers — never fire), while after a successful commit()
the onComplete callbacks receive exactly the accumulated CDC events. -/
theorem rollback_suppresses_commit_delivers (base : String → Key → Option Doc)
    (mutations : List DatabaseMutation) (ops : List TxOp) :
    deliveredCDCEvents
        (txRollback (ops.foldl runTxOp (freshTx base mutations))).1
        (txRollback (ops.foldl runTxOp (freshTx base mutations))).2 = none ∧
    deliveredCDCEvents
        (txCommit (ops.foldl runTxOp (freshTx base mutations))).1
        (txCommit (ops.foldl runTxOp (freshTx base mutations))).2 =
      some (ops.foldl runTxOp (freshTx base mutations)).cdcEvents := by
  constructor
  · rfl
  · unfold txCommit deliveredCDCEvents
    rw [runTxOps_shouldPublish ops (freshTx base mutations)]
    rfl

theorem overlayQueryByKey_congr (s s' : TxState) (h1 : s.base = s'.base)
    (h2 : s.mutations = s'.mutations) (cn : String) (k : Key) :
    overlayQueryByKey s cn k = overlayQueryByKey s' cn k := by
  unfold overlayQueryByKey pendingMap
  rw [h1, h2]

theorem gcStep_base (acc : TxState) (c : PendingMutationChange) :
    (gcStep acc c).base = acc.base := rfl

theorem gcStep_mutations (acc : TxState) (c : PendingMutationChange) :
    (gcStep acc c).mutations = acc.mutations := rfl

theorem gcStep_events_mono (acc : TxState) (c : PendingMutationChange)
    (e : CDCEvent) (h : e ∈ acc.cdcEvents) : e ∈ (gcStep acc c).cdcEvents := by
  simp only [gcStep]
  exact List.mem_append_left _ h

theorem gcFold_events_mono (l : List PendingMutationChange) (acc : TxState)
    (e : CDCEvent) (h : e ∈ acc.cdcEvents) :
    e ∈ (l.foldl gcStep acc).cdcEvents := by
  induction l generalizing acc with
  | nil => exact h
  | cons c t ih =>
    rw [List.foldl_cons]
    exact ih _ (gcStep_events_mono acc c e h)

theorem gcFold_emits_inverse_delete (s1 : TxState)
    (l : List PendingMutationChange) (acc : TxState) (meta : ChangeMeta)
    (v : Doc) (hb : acc.base = s1.base) (hm : acc.mutations = s1.mutations)
    (hc : (.insertChange meta v) ∈ l)
    (hov : overlayQueryByKey s1 meta.collectionName meta.key = none) :
    ∃ t, (.DELETE meta.collectionName meta.key v t) ∈
      (l.foldl gcStep acc).cdcEvents := by
  induction l generalizing acc with
  | nil => cases hc
  | cons c t' ih =>
    rw [List.foldl_cons]
    rcases List.mem_cons.mp hc with hc | hc
    · subst hc
      have hovacc :
          overlayQueryByKey acc meta.collectionName meta.key = none := by
        rw [overlayQueryByKey_congr acc s1 hb hm]
        exact hov
      have hev : gcEventForChange acc (.insertChange meta v) (acc.ts + 1) =
          [.DELETE meta.collectionName meta.key v (acc.ts + 1)] := by
        unfold gcEventForChange
        simp only [PendingMutationChange.meta, hovacc]
      refine ⟨acc.ts + 1, gcFold_events_mono t' _ _ ?_⟩
      simp only [gcStep, hev]
      exact List.mem_append_right _ (List.mem_singleton.mpr rfl)
    · exact ih (gcStep acc c) (by rw [gcStep_base, hb])
        (by rw [gcStep_mutations, hm]) hc

/-- C6 (amended): when a completed mutation row is deleted from __mutations
and one of its recorded changes is an INSERT for a (collection, key) such
that the *overlay view after the row's removal* (not the raw authoritative
store) has no document at that (collection, key), the transaction emits an
inverting CDC DELETE event for that (collection, key) carrying change.value. -/
theorem deleteMutation_insert_change_emits_inverse_delete (s : TxState)
    (mid : Nat) (m : DatabaseMutation) (meta : ChangeMeta) (v : Doc)
    (hfind : s.mutations.find? (fun m' => m'.id == mid) = some m)
    (hcomp : m.isCompleted = true)
    (hchange : (.insertChange meta v) ∈ m.changes)
    (hov : overlayQueryByKey
        { s with mutations := s.mutations.filter (fun m' => !(m'.id == mid)) }
        meta.collectionName meta.key = none) :
    ∃ t, (.DELETE meta.collectionName meta.key v t) ∈
      (txDeleteMutationRow s mid true).2.cdcEvents := by
  unfold txDeleteMutationRow
  rw [hfind]
  simp only [if_true]
  unfold handleDeleteDatabaseMutation
  rw [hcomp]
  simp only [Bool.not_true, Bool.false_eq_true, if_false]
  exact gcFold_emits_inverse_delete
    { s with mutations := s.mutations.filter (fun m' => !(m'.id == mid)) }
    m.changes _ meta v rfl rfl hchange hov

theorem deleteMutation_insert_change_witness :
    (freshTx (fun _ _ => none)
        [⟨1, ["todo"], "insertTodo", [], true, false, 0,
          [.insertChange ⟨"todo", "k1", 1, 1⟩ [("f", 1)]], none,
          none⟩]).mutations.find? (fun m' => m'.id == 1) =
      some ⟨1, ["todo"], "insertTodo", [], true, false, 0,
        [.insertChange ⟨"todo", "k1", 1, 1⟩ [("f", 1)]], none, none⟩ ∧
    overlayQueryByKey
        { freshTx (fun _ _ => none)
            [⟨1, ["todo"], "insertTodo", [], true, false, 0,
              [.insertChange ⟨"todo", "k1", 1, 1⟩ [("f", 1)]], none,
              none⟩] with
          mutations :=
            (freshTx (fun _ _ => none)
                [⟨1, ["todo"], "insertTodo", [], true, false, 0,
                  [.insertChange ⟨"todo", "k1", 1, 1⟩ [("f", 1)]], none,
                  none⟩]).mutations.filter (fun m' => !(m'.id == 1)) }
        "todo" "k1" = none ∧
    (∃ t, (CDCEvent.DELETE "todo" "k1" [("f", 1)] t) ∈
      (txDeleteMutationRow
          (freshTx (fun _ _ => none)
            [⟨1, ["todo"], "insertTodo", [], true, false, 0,
              [.insertChange ⟨"todo", "k1", 1, 1⟩ [("f", 1)]], none, none⟩])
          1 true).2.cdcEvents) :=
  ⟨by decide, by decide,
    deleteMutation_insert_change_emits_inverse_delete
      (freshTx (fun _ _ => none)
        [⟨1, ["todo"], "insertTodo", [], true, false, 0,
          [.insertChange ⟨"todo", "k1", 1, 1⟩ [("f", 1)]], none, none⟩])
      1
      ⟨1, ["todo"], "insertTodo", [], true, false, 0,
        [.insertChange ⟨"todo", "k1", 1, 1⟩ [("f", 1)]], none, none⟩
      ⟨"todo", "k1", 1, 1⟩ [("f", 1)] (by decide) (by decide)
      (List.mem_singleton.mpr rfl) (by decide)⟩

/-- C6 counterexample: the authoritative store does not contain the document
(base is empty), the deleted completed mutation row records an INSERT for
("todo", "k1"), yet no CDC event at all is emitted, because the remaining
pending mutations (a DELETE followed by a fresh INSERT of "k1") leave the
overlay view containing the document, and the source consults that overlay
view instead of the authoritative store. -/
theorem deleteMutation_insert_change_no_delete_emitted :
    (freshTx (fun _ _ => none)
        [⟨1, ["todo"], "insertTodo", [], true, false, 0,
          [.insertChange ⟨"todo", "k1", 1, 1⟩ [("f", 1)]], none, none⟩,
         ⟨2, ["todo"], "deleteTodo", [], true, false, 0,
          [.deleteChange ⟨"todo", "k1", 2, 5⟩ [("f", 1)]], none, none⟩,
         ⟨3, ["todo"], "insertTodo", [], true, false, 0,
          [.insertChange ⟨"todo", "k1", 3, 9⟩ [("f", 3)]], none,
          none⟩]).base "todo" "k1" = none ∧
    (txDeleteMutationRow
        (freshTx (fun _ _ => none)
          [⟨1, ["todo"], "insertTodo", [], true, false, 0,
            [.insertChange ⟨"todo", "k1", 1, 1⟩ [("f", 1)]], none, none⟩,
           ⟨2, ["todo"], "deleteTodo", [], true, false, 0,
            [.deleteChange ⟨"todo", "k1", 2, 5⟩ [("f", 1)]], none, none⟩,
           ⟨3, ["todo"], "insertTodo", [], true, false, 0,
            [.insertChange ⟨"todo", "k1", 3, 9⟩ [("f", 3)]], none, none⟩])
        1 true).2.cdcEvents = [] := by
  refine ⟨by decide, by decide⟩

theorem queryStep_doc_equiv (cn : String) (qk : Key) (st : CStore)
    (e : CDCEvent) :
    updateQueryCacheStep (.get cn qk) (evalQuery (.get cn qk) st) e =
      evalQuery (.get cn qk) (applyCDCEventToStore st e) := by
  funext k'
  cases e with
  | INSERT cn' k v t =>
    by_cases hcn : cn' = cn
    · subst hcn
      by_cases hk : k = qk
      · subst hk
        by_cases hk' : k' = k <;>
          simp [updateQueryCacheStep, doesCollectionCDCEventAffectResult,
            handleQueryCDCEvent, CDCEvent.collectionName, CDCEvent.eventKey,
            QueryOption.collectionName, QueryOption.isDocQueryOn,
            evalQuery, applyCDCEventToStore, fset, bset, hk']
      · by_cases hk' : k' = qk <;>
          simp [updateQueryCacheStep, doesCollectionCDCEventAffectResult,
            handleQueryCDCEvent, CDCEvent.collectionName, CDCEvent.eventKey,
            QueryOption.collectionName, QueryOption.isDocQueryOn,
            evalQuery, applyCDCEventToStore, fset, bset, hk, hk',
            Ne.symm hk]
    · by_cases hk' : k' = qk <;>
        simp [updateQueryCacheStep, doesCollectionCDCEventAffectResult,
          CDCEvent.collectionName, QueryOption.collectionName,
          evalQuery, applyCDCEventToStore, bset, hcn, Ne.symm hcn, hk']
  | DELETE cn' k v t =>
    by_cases hcn : cn' = cn
    · subst hcn
      by_cases hk : k = qk
      · subst hk
        by_cases hk' : k' = k <;>
          simp [updateQueryCacheStep, doesCollectionCDCEventAffectResult,
            handleQueryCDCEvent, CDCEvent.collectionName, CDCEvent.eventKey,
            QueryOption.collectionName, QueryOption.isDocQueryOn,
            evalQuery, applyCDCEventToStore, fset, bset, hk']
      · by_cases hk' : k' = qk <;>
          simp [updateQueryCacheStep, doesCollectionCDCEventAffectResult,
            handleQueryCDCEvent, CDCEvent.collectionName, CDCEvent.eventKey,
            QueryOption.collectionName, QueryOption.isDocQueryOn,
            evalQuery, applyCDCEventToStore, fset, bset, hk, hk',
            Ne.symm hk]
    · by_cases hk' : k' = qk <;>
        simp [updateQueryCacheStep, doesCollectionCDCEventAffectResult,
          CDCEvent.collectionName, QueryOption.collectionName,
          evalQuery, applyCDCEventToStore, bset, hcn, Ne.symm hcn, hk']
  | UPDATE cn' k post pre delta t =>
    by_cases hcn : cn' = cn
    · subst hcn
      by_cases hk : k = qk
      · subst hk
        cases hst : st cn' k with
        | none =>
          by_cases hk' : k' = k <;>
            simp [updateQueryCacheStep, doesCollectionCDCEventAffectResult,
              handleQueryCDCEvent, CDCEvent.collectionName, CDCEvent.eventKey,
              QueryOption.collectionName, QueryOption.isDocQueryOn,
              evalQuery, applyCDCEventToStore, fset, bset, hst, hk']
        | some b =>
          by_cases hk' : k' = k <;>
            simp [updateQueryCacheStep, doesCollectionCDCEventAffectResult,
              handleQueryCDCEvent, CDCEvent.collectionName, CDCEvent.eventKey,
              QueryOption.collectionName, QueryOption.isDocQueryOn,
              evalQuery, applyCDCEventToStore, fset, bset, hst, hk']
      · cases hst : st cn' k with
        | none =>
          by_cases hk' : k' = qk <;>
            simp [updateQueryCacheStep, doesCollectionCDCEventAffectResult,
              handleQueryCDCEvent, CDCEvent.collectionName, CDCEvent.eventKey,
              QueryOption.collectionName, QueryOption.isDocQueryOn,
              evalQuery, applyCDCEventToStore, fset, bset, hst, hk, hk',
              Ne.symm hk]
        | some b =>
          by_cases hk' : k' = qk <;>
            simp [updateQueryCacheStep, doesCollectionCDCEventAffectResult,
              handleQueryCDCEvent, CDCEvent.collectionName, CDCEvent.eventKey,
              QueryOption.collectionName, QueryOption.isDocQueryOn,
              evalQuery, applyCDCEventToStore, fset, bset, hst, hk, hk',
              Ne.symm hk]
    · by_cases hk' : k' = qk
      · cases hst : st cn qk with
        | none =>
          cases hst' : st cn' k <;>
            simp [updateQueryCacheStep, doesCollectionCDCEventAffectResult,
              CDCEvent.collectionName, QueryOption.collectionName,
              evalQuery, applyCDCEventToStore, bset, hcn, Ne.symm hcn, hk', hst, hst']
        | some b =>
          cases hst' : st cn' k <;>
            simp [updateQueryCacheStep, doesCollectionCDCEventAffectResult,
              CDCEvent.collectionName, QueryOption.collectionName,
              evalQuery, applyCDCEventToStore, bset, hcn, Ne.symm hcn, hk', hst, hst']
      · cases hst' : st cn' k <;>
          simp [updateQueryCacheStep, doesCollectionCDCEventAffectResult,
            CDCEvent.collectionName, QueryOption.collectionName,
            evalQuery, applyCDCEventToStore, bset, hcn, Ne.symm hcn, hk', hst']
  | CLEAR cn' t =>
    by_cases hcn : cn' = cn
    · subst hcn
      by_cases hk' : k' = qk <;>
        simp [updateQueryCacheStep, doesCollectionCDCEventAffectResult,
          handleQueryCDCEvent, CDCEvent.collectionName,
          QueryOption.collectionName, evalQuery, applyCDCEventToStore,
          bclear, hk']
    · by_cases hk' : k' = qk <;>
        simp [updateQueryCacheStep, doesCollectionCDCEventAffectResult,
          CDCEvent.collectionName, QueryOption.collectionName,
          evalQuery, applyCDCEventToStore, bclear, hcn, Ne.symm hcn, hk']

theorem queryStep_unfiltered_equiv (cn : String) (st : CStore) (e : CDCEvent) :
    updateQueryCacheStep (.getAll cn none) (evalQuery (.getAll cn none) st) e =
      evalQuery (.getAll cn none) (applyCDCEventToStore st e) := by
  funext k'
  cases e with
  | INSERT cn' k v t =>
    by_cases hcn : cn' = cn
    · subst hcn
      by_cases hk' : k' = k <;>
        simp [updateQueryCacheStep, doesCollectionCDCEventAffectResult,
          handleQueryCDCEvent, CDCEvent.collectionName, CDCEvent.eventKey,
          QueryOption.collectionName, QueryOption.isDocQueryOn,
          QueryOption.condition, evalQuery, applyCDCEventToStore, fset, bset,
          hk']
    · simp [updateQueryCacheStep, doesCollectionCDCEventAffectResult,
        CDCEvent.collectionName, QueryOption.collectionName,
        evalQuery, applyCDCEventToStore, bset, hcn, Ne.symm hcn]
  | DELETE cn' k v t =>
    by_cases hcn : cn' = cn
    · subst hcn
      by_cases hk' : k' = k <;>
        simp [updateQueryCacheStep, doesCollectionCDCEventAffectResult,
          handleQueryCDCEvent, CDCEvent.collectionName, CDCEvent.eventKey,
          QueryOption.collectionName, QueryOption.isDocQueryOn,
          QueryOption.condition, evalQuery, applyCDCEventToStore, fset, bset,
          hk']
    · simp [updateQueryCacheStep, doesCollectionCDCEventAffectResult,
        CDCEvent.collectionName, QueryOption.collectionName,
        evalQuery, applyCDCEventToStore, bset, hcn, Ne.symm hcn]
  | UPDATE cn' k post pre delta t =>
    by_cases hcn : cn' = cn
    · subst hcn
      cases hst : st cn' k with
      | none =>
        by_cases hk' : k' = k <;>
          simp [updateQueryCacheStep, doesCollectionCDCEventAffectResult,
            handleQueryCDCEvent, CDCEvent.collectionName, CDCEvent.eventKey,
            QueryOption.collectionName, QueryOption.isDocQueryOn,
            QueryOption.condition, evalQuery, applyCDCEventToStore, fset,
            bset, hst, hk']
      | some b =>
        by_cases hk' : k' = k <;>
          simp [updateQueryCacheStep, doesCollectionCDCEventAffectResult,
            handleQueryCDCEvent, CDCEvent.collectionName, CDCEvent.eventKey,
            QueryOption.collectionName, QueryOption.isDocQueryOn,
            QueryOption.condition, evalQuery, applyCDCEventToStore, fset,
            bset, hst, hk']
    · cases hst' : st cn' k <;>
        simp [updateQueryCacheStep, doesCollectionCDCEventAffectResult,
          CDCEvent.collectionName, QueryOption.collectionName,
          evalQuery, applyCDCEventToStore, bset, hcn, Ne.symm hcn, hst']
  | CLEAR cn' t =>
    by_cases hcn : cn' = cn
    · subst hcn
      simp [updateQueryCacheStep, doesCollectionCDCEventAffectResult,
        handleQueryCDCEvent, CDCEvent.collectionName,
        QueryOption.collectionName, evalQuery, applyCDCEventToStore, bclear]
    · simp [updateQueryCacheStep, doesCollectionCDCEventAffectResult,
        CDCEvent.collectionName, QueryOption.collectionName,
        evalQuery, applyCDCEventToStore, bclear, hcn, Ne.symm hcn]

theorem updateFold_equiv (opt : QueryOption)
    (hstep : ∀ (st : CStore) (e : CDCEvent),
      updateQueryCacheStep opt (evalQuery opt st) e =
        evalQuery opt (applyCDCEventToStore st e)) :
    ∀ (events : List CDCEvent) (st : CStore),
      updateQueryCacheFromCDCEvents opt (evalQuery opt st) events =
        evalQuery opt (events.foldl applyCDCEventToStore st) := by
  intro events
  induction events with
  | nil => intro st; rfl
  | cons e es ih =>
    intro st
    unfold updateQueryCacheFromCDCEvents at ih ⊢
    rw [List.foldl_cons, List.foldl_cons, hstep]
    exact ih _

/-- C1 (amended): for document queries and unfiltered collection queries in
success state, applying any list of CDC events incrementally to the cached
result yields exactly the result of recomputing the query from scratch
against the store obtained by applying those same events. (For collection
queries with a filterOption the equivalence fails; see the counterexample.) -/
theorem incremental_equals_recompute_doc_and_unfiltered (cn : String)
    (st : CStore) (events : List CDCEvent) :
    (∀ qk : Key,
      updateQueryCacheFromCDCEvents (.get cn qk) (evalQuery (.get cn qk) st)
          events =
        evalQuery (.get cn qk) (events.foldl applyCDCEventToStore st)) ∧
    updateQueryCacheFromCDCEvents (.getAll cn none)
        (evalQuery (.getAll cn none) st) events =
      evalQuery (.getAll cn none) (events.foldl applyCDCEventToStore st) :=
  ⟨fun qk => updateFold_equiv _ (queryStep_doc_equiv cn qk) events st,
    updateFold_equiv _ (queryStep_unfiltered_equiv cn) events st⟩

/-- C1 counterexample: for a filtered collection query, an UPDATE event whose
postUpdateValue no longer satisfies the filter is dropped by the affect
predicate, so the stale row stays in the cached result, while recomputing
from scratch excludes it: incremental application and recomputation disagree
at key "k1". -/
theorem incremental_filtered_query_stale_row :
    updateQueryCacheFromCDCEvents (.getAll "todo" (some ⟨"f", .eq, 1⟩))
        (evalQuery (.getAll "todo" (some ⟨"f", .eq, 1⟩))
          (fun cn k => if cn == "todo" && k == "k1" then some [("f", 1)] else none))
        [.UPDATE "todo" "k1" [("f", 2)] [("f", 1)] [("f", 2)] 7] "k1" =
      some [("f", 1)] ∧
    evalQuery (.getAll "todo" (some ⟨"f", .eq, 1⟩))
        ([CDCEvent.UPDATE "todo" "k1" [("f", 2)] [("f", 1)] [("f", 2)] 7].foldl
          applyCDCEventToStore
          (fun cn k => if cn == "todo" && k == "k1" then some [("f", 1)] else none))
        "k1" = none := by
  refine ⟨by decide, by decide⟩

theorem gcFold_base (l : List PendingMutationChange) (acc : TxState) :
    (l.foldl gcStep acc).base = acc.base := by
  induction l generalizing acc with
  | nil => rfl
  | cons c t ih => rw [List.foldl_cons, ih, gcStep_base]

theorem gcFold_mutations (l : List PendingMutationChange) (acc : TxState) :
    (l.foldl gcStep acc).mutations = acc.mutations := by
  induction l generalizing acc with
  | nil => rfl
  | cons c t ih => rw [List.foldl_cons, ih, gcStep_mutations]

theorem handleDeleteDatabaseMutation_base (s : TxState) (m : DatabaseMutation) :
    (handleDeleteDatabaseMutation s m).base = s.base := by
  unfold handleDeleteDatabaseMutation
  split
  · rfl
  · exact gcFold_base m.changes s

theorem handleDeleteDatabaseMutation_mutations (s : TxState)
    (m : DatabaseMutation) :
    (handleDeleteDatabaseMutation s m).mutations = s.mutations := by
  unfold handleDeleteDatabaseMutation
  split
  · rfl
  · exact gcFold_mutations m.changes s

theorem txDeleteMutationRow_base (s : TxState) (mid : Nat) (emit : Bool) :
    (txDeleteMutationRow s mid emit).2.base = s.base := by
  simp only [txDeleteMutationRow]
  split
  · rfl
  · split
    · exact handleDeleteDatabaseMutation_base _ _
    · rfl

theorem txDeleteMutationRow_mutations (s : TxState) (mid : Nat) (emit : Bool) :
    (txDeleteMutationRow s mid emit).2.mutations =
      s.mutations.filter (fun m' => !(m'.id == mid)) := by
  simp only [txDeleteMutationRow]
  split
  case h_1 hfind =>
    have hall : ∀ m' ∈ s.mutations, (!(m'.id == mid)) = true := by
      intro m' hm'
      have := List.find?_eq_none.mp hfind m' hm'
      simpa using this
    rw [List.filter_eq_self.mpr hall]
  case h_2 m hfind =>
    split
    · rw [handleDeleteDatabaseMutation_mutations]
    · rfl

theorem txInsert_mutations (s : TxState) (cn : String) (k : Key) (v : Doc)
    (e sk : Bool) : (txInsert s cn k v e sk).2.mutations = s.mutations := by
  simp only [txInsert]
  repeat' split
  all_goals rfl

theorem txUpdate_mutations (s : TxState) (cn : String) (k : Key) (d : Doc)
    (e sk : Bool) : (txUpdate s cn k d e sk).2.mutations = s.mutations := by
  simp only [txUpdate]
  repeat' split
  all_goals rfl

theorem txDelete_mutations (s : TxState) (cn : String) (k : Key)
    (e sk : Bool) : (txDelete s cn k e sk).2.mutations = s.mutations := by
  simp only [txDelete]
  repeat' split
  all_goals rfl

theorem txClear_mutations (s : TxState) (cn : String) (e : Bool) :
    (txClear s cn e).mutations = s.mutations := by
  simp only [txClear]
  split
  all_goals rfl

theorem txUpsert_mutations (s : TxState) (cn : String) (k : Key) (v : Doc)
    (e sk : Bool) : (txUpsert s cn k v e sk).2.mutations = s.mutations := by
  have hu := txUpdate_mutations s cn k v e sk
  have hi := txInsert_mutations s cn k v e sk
  rcases htx : txUpdate s cn k v e sk with ⟨r, s'⟩
  rw [htx] at hu
  simp only [txUpsert]
  rw [htx]
  by_cases hds :
      (if sk = true then s.base cn k else overlayQueryByKey s cn k).isSome =
        true
  · rw [if_pos hds]
    cases r with
    | ok o => cases o <;> simpa using hu
    | error err => simpa using hu
  · rw [if_neg hds]
    exact hi

theorem buildPendingCollectionMap_eq_nil (ms : List DatabaseMutation)
    (cn : String)
    (h : ∀ m ∈ ms, ∀ c ∈ m.changes, c.meta.collectionName ≠ cn) :
    buildPendingCollectionMap ms cn = [] := by
  have hsorted : ∀ c ∈ sortedCompletedChanges ms,
      c.meta.collectionName ≠ cn := by
    intro c hc
    have hmem : c ∈ ((ms.filter (fun m => m.isCompleted)).map
        (fun m => m.changes)).flatten := by
      unfold sortedCompletedChanges at hc
      exact (List.perm_insertionSort _ _).mem_iff.mp hc
    rcases List.mem_flatten.mp hmem with ⟨cs, hcs, hcmem⟩
    rcases List.mem_map.mp hcs with ⟨m, hm, rfl⟩
    exact h m (List.mem_filter.mp hm).1 c hcmem
  unfold buildPendingCollectionMap
  have main : ∀ (l : List PendingMutationChange)
      (cmap : String → PendingEntries),
      (∀ c ∈ l, c.meta.collectionName ≠ cn) →
      (l.foldl
        (fun cmap c => fun cn' =>
          if cn' == c.meta.collectionName then
            applyPendingChangeToMap (cmap cn') c
          else cmap cn') cmap) cn = cmap cn := by
    intro l
    induction l with
    | nil => intro cmap _; rfl
    | cons c t ih =>
      intro cmap hl
      rw [List.foldl_cons]
      rw [ih _ (fun c' hc' => hl c' (List.mem_cons_of_mem c hc'))]
      have hne : (cn == c.meta.collectionName) = false :=
        beq_eq_false_iff_ne.mpr
          (fun e => (hl c (List.mem_cons_self c t)) e.symm)
      rw [hne]
      simp
  exact main _ _ hsorted

theorem overlayQueryByKey_of_pending_nil (s : TxState) (cn : String) (k : Key)
    (h : pendingMap s cn = []) : overlayQueryByKey s cn k = s.base cn k := by
  unfold overlayQueryByKey
  rw [h]
  rfl

theorem find?_filter_of_base_missing (b : Doc) (d : Doc) (f : String)
    (hb : (List.find? (fun p => p.1 == f) b) = none) :
    List.find? (fun p => p.1 == f)
        (d.filter (fun p => (lookupField b p.1).isNone)) =
      List.find? (fun p => p.1 == f) d := by
  induction d with
  | nil => rfl
  | cons p d' ih =>
    by_cases hpf : (p.1 == f) = true
    · have hp1 : p.1 = f := by simpa using hpf
      have hkeep : (lookupField b p.1).isNone = true := by
        rw [hp1]
        unfold lookupField
        rw [hb]
        rfl
      rw [List.filter_cons, if_pos hkeep, List.find?_cons, hpf,
        List.find?_cons, hpf]
    · have hb2 : (p.1 == f) = false := by simpa using hpf
      cases hkeep : (lookupField b p.1).isNone with
      | true =>
        rw [List.filter_cons, if_pos hkeep, List.find?_cons, hb2,
          List.find?_cons, hb2]
        exact ih
      | false =>
        rw [List.filter_cons, if_neg (by simp [hkeep]), List.find?_cons, hb2]
        exact ih

theorem lookupField_jsMerge (b d : Doc) (f : String) :
    lookupField (jsMerge b d) f =
      match lookupField d f with
      | some v => some v
      | none => lookupField b f := by
  have hpred : ((fun p : String × Int => p.1 == f) ∘
      (fun p : String × Int =>
        match lookupField d p.1 with
        | some v => (p.1, v)
        | none => p)) = (fun p : String × Int => p.1 == f) := by
    funext p
    simp only [Function.comp]
    cases lookupField d p.1 <;> rfl
  conv_lhs => unfold lookupField
  unfold jsMerge
  rw [List.find?_append, List.find?_map, hpred]
  cases hfb : List.find? (fun p => p.1 == f) b with
  | some pb =>
    have hpb1 : pb.1 = f := by
      have := List.find?_some hfb
      simpa using this
    cases hld : lookupField d f with
    | some v => simp [Option.or, hpb1, hld]
    | none =>
      have hld' :
          Option.map (fun p : String × Int => p.2)
            (List.find? (fun p => p.1 == f) d) = none := hld
      simp [Option.or, hpb1, hld, hld', lookupField, hfb]
  | none =>
    rw [find?_filter_of_base_missing b d f hfb]
    cases hld : List.find? (fun p => p.1 == f) d with
    | some pd => simp [Option.or, lookupField, hld]
    | none => simp [Option.or, lookupField, hld, hfb]

theorem cursor_upsert_stores_cursor (s1 : TxState) (c : Int)
    (hpm : pendingMap s1 "__meta" = []) :
    ∃ d, (txUpsert s1 "__meta" "cursor" [("cursor", c)] true false).2.base
        "__meta" "cursor" = some d ∧ lookupField d "cursor" = some c := by
  have hov := overlayQueryByKey_of_pending_nil s1 "__meta" "cursor" hpm
  cases hb : s1.base "__meta" "cursor" with
  | none =>
    refine ⟨[("cursor", c)], ?_, rfl⟩
    rw [hb] at hov
    simp only [txUpsert, txInsert, hov, hb]
    simp [handlePushCDC, bset]
  | some e =>
    refine ⟨jsMerge e (jsMerge e [("cursor", c)]), ?_, ?_⟩
    · rw [hb] at hov
      simp only [txUpsert, txUpdate, hov, hb]
      simp [handlePushCDC, bset]
    · rw [lookupField_jsMerge, lookupField_jsMerge]
      rfl

theorem pullGCFold_mutations (M : Nat) (l : List DatabaseMutation) :
    ∀ acc : TxState,
      ((l.foldl
        (fun acc m =>
          if shouldRemoveMutation M m then (txDeleteMutationRow acc m.id true).2
          else acc) acc).mutations) =
      acc.mutations.filter
        (fun r => !(l.any (fun m =>
          shouldRemoveMutation M m && r.id == m.id))) := by
  induction l with
  | nil => intro acc; simp
  | cons m t ih =>
    intro acc
    rw [List.foldl_cons]
    cases hrm : shouldRemoveMutation M m with
    | false =>
      rw [if_neg (by simp [hrm])]
      rw [ih acc]
      apply List.filter_congr
      intro r _
      simp [hrm]
    | true =>
      rw [if_pos (by simp [hrm])]
      rw [ih _, txDeleteMutationRow_mutations, List.filter_filter]
      apply List.filter_congr
      intro r _
      cases hid : (r.id == m.id) <;> simp [hrm, hid]

theorem applyRemoteOperation_mutations (s : TxState) (cn : String)
    (op : RemoteOperation) :
    (applyRemoteOperation s cn op).mutations = s.mutations := by
  cases op with
  | clearAction => exact txClear_mutations s cn true
  | createdAction k v => exact txUpsert_mutations s cn k v true true
  | updatedAction k v => exact txUpsert_mutations s cn k v true true
  | deletedAction k => exact txDelete_mutations s cn k true true

theorem opsFold_mutations (cn : String) (ops : List RemoteOperation) :
    ∀ acc : TxState,
      ((ops.foldl (fun a op => applyRemoteOperation a cn op) acc).mutations) =
        acc.mutations := by
  induction ops with
  | nil => intro acc; rfl
  | cons op t ih =>
    intro acc
    rw [List.foldl_cons, ih, applyRemoteOperation_mutations]

theorem changeFold_mutations (change : List (String × List RemoteOperation)) :
    ∀ acc : TxState,
      ((change.foldl
        (fun acc p => p.2.foldl (fun a op => applyRemoteOperation a p.1 op) acc)
        acc).mutations) = acc.mutations := by
  induction change with
  | nil => intro acc; rfl
  | cons p t ih =>
    intro acc
    rw [List.foldl_cons, ih, opsFold_mutations]

/-- C8: after the pull transaction body runs with a response whose
lastProcessedMutationId is M, exactly the mutation rows with isPushed and a
defined serverMutationId at most M have been deleted from __mutations (every
other row remains), and when the response carries a cursor, __meta at key
"cursor" holds that cursor value. Hypotheses: the __mutations keys (row ids)
are unique, and — as WriteTransaction records changes only for user
collections — no recorded pending change targets the internal "__meta"
collection. -/
theorem pull_gc_and_cursor (s : TxState) (resp : PullResponse)
    (hids : (s.mutations.map (fun m => m.id)).Nodup)
    (hmch : ∀ m ∈ s.mutations, ∀ ch ∈ m.changes,
      ch.meta.collectionName ≠ "__meta") :
    (pullTxBody s resp).mutations =
      s.mutations.filter
        (fun m => !(shouldRemoveMutation resp.lastProcessedMutationId m)) ∧
    (∀ c, resp.cursor = some c →
      ∃ d, (pullTxBody s resp).base "__meta" "cursor" = some d ∧
        lookupField d "cursor" = some c) := by
  have hfilter_eq :
      s.mutations.filter
          (fun r => !(s.mutations.any (fun m =>
            shouldRemoveMutation resp.lastProcessedMutationId m &&
              r.id == m.id))) =
        s.mutations.filter
          (fun m => !(shouldRemoveMutation resp.lastProcessedMutationId m)) := by
    apply List.filter_congr
    intro r hr
    congr 1
    cases hpr : shouldRemoveMutation resp.lastProcessedMutationId r with
    | true => exact List.any_eq_true.mpr ⟨r, hr, by simp [hpr]⟩
    | false =>
      rw [List.any_eq_false]
      intro m hm hcon
      rw [Bool.and_eq_true] at hcon
      have h1 := hcon.1
      have h2 : r.id = m.id := by simpa using hcon.2
      have hrm : r = m := List.inj_on_of_nodup_map hids hr hm h2
      rw [← hrm] at h1
      exact absurd h1 (by simp [hpr])
  constructor
  · simp only [pullTxBody, applyRemoteChange]
    cases hcur : resp.cursor with
    | some c =>
      rw [txUpsert_mutations, changeFold_mutations, pullGCFold_mutations,
        hfilter_eq]
    | none =>
      rw [changeFold_mutations, pullGCFold_mutations, hfilter_eq]
  · intro c hc
    simp only [pullTxBody, applyRemoteChange]
    rw [hc]
    apply cursor_upsert_stores_cursor
    apply buildPendingCollectionMap_eq_nil
    intro m hm ch hch'
    rw [changeFold_mutations, pullGCFold_mutations] at hm
    exact hmch m (List.mem_filter.mp hm).1 ch hch'

theorem pull_gc_and_cursor_witness :
    (((freshTx (fun _ _ => none)
        [⟨1, [], "m1", [], true, true, 0, [], none, some 3⟩,
         ⟨2, [], "m2", [], true, false, 0, [], none,
          none⟩]).mutations.map (fun m => m.id)).Nodup) ∧
    (∀ m ∈ (freshTx (fun _ _ => none)
        [⟨1, [], "m1", [], true, true, 0, [], none, some 3⟩,
         ⟨2, [], "m2", [], true, false, 0, [], none, none⟩]).mutations,
      ∀ ch ∈ m.changes, ch.meta.collectionName ≠ "__meta") ∧
    ((pullTxBody
        (freshTx (fun _ _ => none)
          [⟨1, [], "m1", [], true, true, 0, [], none, some 3⟩,
           ⟨2, [], "m2", [], true, false, 0, [], none, none⟩])
        (PullResponse.mk
          [("todo", [RemoteOperation.createdAction "k1" [("f", 1)]])] (some 7)
          5)).mutations =
      (freshTx (fun _ _ => none)
        [⟨1, [], "m1", [], true, true, 0, [], none, some 3⟩,
         ⟨2, [], "m2", [], true, false, 0, [], none,
          none⟩]).mutations.filter
        (fun m => !(shouldRemoveMutation
          (PullResponse.mk
            [("todo", [RemoteOperation.createdAction "k1" [("f", 1)]])]
            (some 7) 5).lastProcessedMutationId m)) ∧
    (∀ c, (PullResponse.mk
        [("todo", [RemoteOperation.createdAction "k1" [("f", 1)]])] (some 7)
        5).cursor = some c →
      ∃ d, (pullTxBody
          (freshTx (fun _ _ => none)
            [⟨1, [], "m1", [], true, true, 0, [], none, some 3⟩,
             ⟨2, [], "m2", [], true, false, 0, [], none, none⟩])
          (PullResponse.mk
            [("todo", [RemoteOperation.createdAction "k1" [("f", 1)]])]
            (some 7) 5)).base "__meta" "cursor" = some d ∧
        lookupField d "cursor" = some c)) :=
  ⟨by decide, by decide,
    pull_gc_and_cursor
      (freshTx (fun _ _ => none)
        [⟨1, [], "m1", [], true, true, 0, [], none, some 3⟩,
         ⟨2, [], "m2", [], true, false, 0, [], none, none⟩])
      (PullResponse.mk
        [("todo", [RemoteOperation.createdAction "k1" [("f", 1)]])] (some 7) 5)
      (by decide) (by decide)⟩

/-- C10: once LockController.request proceeds past its wait loop it writes
the lock entry with locked = true and its own id, runs the callback on the
storage carrying that entry, and removes the entry only after the callback
resolves: for every callback that does not touch the entry itself, a throwing
callback leaves the entry in place with locked = true and its error
propagates to the caller, while a resolving callback ends with the entry
removed. -/
theorem lockRequest_entry_semantics (storage : LockStorage)
    (lockName ownId : String)
    (callback : LockStorage → Option String × LockStorage)
    (hpres : ∀ st, ((callback st).2) lockName = st lockName) :
    (∀ err,
      (callback (fun n =>
        if n == lockName then some ⟨true, ownId⟩ else storage n)).1 =
          some err →
      (lockRequestAcquired storage lockName ownId callback).1 = some err ∧
      (lockRequestAcquired storage lockName ownId callback).2 lockName =
        some ⟨true, ownId⟩) ∧
    ((callback (fun n =>
        if n == lockName then some ⟨true, ownId⟩ else storage n)).1 = none →
      (lockRequestAcquired storage lockName ownId callback).2 lockName =
        none ∧
      (lockRequestAcquired storage lockName ownId callback).1 = none) := by
  constructor
  · intro err herr
    simp only [lockRequestAcquired]
    rw [herr]
    refine ⟨rfl, ?_⟩
    rw [hpres]
    simp
  · intro hok
    simp only [lockRequestAcquired]
    rw [hok]
    exact ⟨by simp, rfl⟩

theorem lockRequest_entry_semantics_witness :
    ((lockRequestAcquired (fun _ => none) "push:db" "me"
        (fun st => (some "boom", st))).1 = some "boom" ∧
      (lockRequestAcquired (fun _ => none) "push:db" "me"
        (fun st => (some "boom", st))).2 "push:db" = some ⟨true, "me"⟩) ∧
    ((lockRequestAcquired (fun _ => none) "push:db" "me"
        (fun st => (none, st))).2 "push:db" = none ∧
      (lockRequestAcquired (fun _ => none) "push:db" "me"
        (fun st => (none, st))).1 = none) :=
  ⟨(lockRequest_entry_semantics (fun _ => none) "push:db" "me"
      (fun st => (some "boom", st)) (fun _ => rfl)).1 "boom" rfl,
    (lockRequest_entry_semantics (fun _ => none) "push:db" "me"
      (fun st => (none, st)) (fun _ => rfl)).2 rfl⟩

end LuminarDB
